import Mathlib

/-! grapeStream.BufferStream : a shallow embedding of `Stream/bufferIO.go`

The buffer is a byte store `vBuffer` with two `int64` cursors.  Every Go method
that mutates its receiver is a function returning the new receiver next to the
Go return values.

Conventions of the embedding

* A byte is a `Fin 256`; a Go `[]byte` is a `List Byte`.  Every slice the
  package allocates comes from `make([]byte, n)`, so `cap = len` throughout and
  the capacity of the store is `vBuffer.length`.
* Go's `int` and `int64` (64-bit platform) are modelled in two layers.  The
  methods in `BufferStream` compute on exact integers: they are the source
  whenever no `int64` result leaves the range of `int64` and `make` returns.
  The methods in `Machine` are the four methods whose arithmetic can leave
  that range, or whose allocation can fail, on an `int` argument (`Resize`,
  `Skip`, `Shift`, `Write`), with Go's wrap-around (`wrapInt64`) and a `make`
  that need not return (`goMake`: the panic above the runtime's limit, and
  the memory `mem` of the environment, which is a parameter).  The two layers agree wherever the first is exact
  (`machine_Skip_agrees`, `machine_Shift_agrees`, `machine_Resize_agrees`,
  `machine_Write_agrees`); under the cursor invariant, on a store Go can hold,
  `Skip` and `Shift` agree for every argument.  The two 32-bit conversions of
  the source, `int32(len(body))` and `uint32(b.writeIndex)`, are modelled with
  explicit reduction modulo `2^32`.
* A Go `error` is an `Option String`: `none` is `nil`, `some msg` is
  `errors.New(msg)`.
* A Go call that does not return (a run-time panic on slice bounds or an
  index out of range, a failed allocation) is the outer `Option` being `none`;
  methods that always return are total functions.
* Slices returned by the source alias the store; the embedding returns their
  value at the moment of the return.  A `[]byte` argument is a value: a slice
  that shares no memory with the store.  `ChangeAuto` is the one method that
  reads its argument while it writes the store byte by byte, so the call whose
  argument is a view of the store has a definition of its own,
  `ChangeAutoView`.
-/

namespace grapeStream

abbrev Byte := Fin 256

/-- The constant `defaultSize` of the source. -/
def defaultSize : Int := 2048

structure BufferStream where
  vBuffer : List Byte
  readIndex : Int
  writeIndex : Int
deriving DecidableEq, Repr

/-! ## Go primitives -/

/-- The slice expression `s[lo:hi]` of Go on a slice with `cap = len`:
it panics unless `0 ≤ lo ≤ hi ≤ len(s)`. -/
def goSlice (s : List Byte) (lo hi : Int) : Option (List Byte) :=
  if 0 ≤ lo ∧ lo ≤ hi ∧ hi ≤ (s.length : Int) then
    some ((s.drop lo.toNat).take (hi - lo).toNat)
  else none

/-- The value of `dst` after the built-in `copy(dst, src)`: the first
`min(len(dst), len(src))` elements are replaced by those of `src`. -/
def goCopy (dst src : List Byte) : List Byte :=
  src.take dst.length ++ dst.drop src.length

/-- The value of `s` after `copy(s[lo:hi], src)`. -/
def goCopyAt (s : List Byte) (lo hi : Int) (src : List Byte) : Option (List Byte) :=
  match goSlice s lo hi with
  | none => none
  | some dst => some (s.take lo.toNat ++ goCopy dst src ++ s.drop hi.toNat)

/-- The conversion `int32(x)` of Go: two's complement truncation to 32 bits. -/
def toInt32 (x : Int) : Int := (x + 2147483648) % 4294967296 - 2147483648

/-- The conversion `uint32(x)` of Go: truncation to 32 bits. -/
def toUint32 (x : Int) : Nat := (x % 4294967296).toNat

/-! ## Byte-order helpers -/

/-- Modelled from the spec: the byte-order helpers (`U8TBytes` .. `I64TBytes`,
`BTUint8` .. `BTInt64`) are called by the source but defined in a file that is
not part of it.  The spec describes them as the fixed-width big-endian
representation, in both directions.  `beEncode w n` is the `w`-byte big-endian
representation of `n` modulo `256^w`. -/
def beEncode : Nat → Nat → List Byte
  | 0, _ => []
  | w + 1, n => beEncode w (n / 256) ++ [Fin.ofNat (n % 256)]

/-- Modelled from the spec: big-endian decoding of a byte sequence (see
`beEncode`).  The source only decodes slices of exactly the width of the type,
or the empty slice that `GetBytes` returns when data is missing, on which the
spec is silent. -/
def beDecode (bs : List Byte) : Nat :=
  bs.foldl (fun acc x => acc * 256 + x.val) 0

/-- Modelled from the spec: the unsigned value of the `w`-byte two's complement
representation of the signed integer `v`. -/
def toUnsigned (w : Nat) (v : Int) : Nat := (v % (256 ^ w : Nat)).toNat

/-- Modelled from the spec: the signed integer whose `w`-byte two's complement
representation has the unsigned value `n`. -/
def toSigned (w : Nat) (n : Nat) : Int :=
  if 2 * n < 256 ^ w then (n : Int) else (n : Int) - (256 ^ w : Nat)

/-- Modelled from the spec: `U8TBytes`, big-endian encoding of a `uint8`. -/
def U8TBytes (v : Nat) : List Byte := beEncode 1 v
/-- Modelled from the spec: `I8TBytes`, big-endian encoding of an `int8`. -/
def I8TBytes (v : Int) : List Byte := beEncode 1 (toUnsigned 1 v)
/-- Modelled from the spec: `U16TBytes`, big-endian encoding of a `uint16`. -/
def U16TBytes (v : Nat) : List Byte := beEncode 2 v
/-- Modelled from the spec: `I16TBytes`, big-endian encoding of an `int16`. -/
def I16TBytes (v : Int) : List Byte := beEncode 2 (toUnsigned 2 v)
/-- Modelled from the spec: `U32TBytes`, big-endian encoding of a `uint32`. -/
def U32TBytes (v : Nat) : List Byte := beEncode 4 v
/-- Modelled from the spec: `I32TBytes`, big-endian encoding of an `int32`. -/
def I32TBytes (v : Int) : List Byte := beEncode 4 (toUnsigned 4 v)
/-- Modelled from the spec: `U64TBytes`, big-endian encoding of a `uint64`. -/
def U64TBytes (v : Nat) : List Byte := beEncode 8 v
/-- Modelled from the spec: `I64TBytes`, big-endian encoding of an `int64`. -/
def I64TBytes (v : Int) : List Byte := beEncode 8 (toUnsigned 8 v)

/-- Modelled from the spec: `BTUint8`, big-endian decoding of a `uint8`. -/
def BTUint8 (bs : List Byte) : Nat := beDecode bs
/-- Modelled from the spec: `BTInt8`, big-endian decoding of an `int8`. -/
def BTInt8 (bs : List Byte) : Int := toSigned 1 (beDecode bs)
/-- Modelled from the spec: `BTUint16`, big-endian decoding of a `uint16`. -/
def BTUint16 (bs : List Byte) : Nat := beDecode bs
/-- Modelled from the spec: `BTInt16`, big-endian decoding of an `int16`. -/
def BTInt16 (bs : List Byte) : Int := toSigned 2 (beDecode bs)
/-- Modelled from the spec: `BTUint32`, big-endian decoding of a `uint32`. -/
def BTUint32 (bs : List Byte) : Nat := beDecode bs
/-- Modelled from the spec: `BTInt32`, big-endian decoding of an `int32`. -/
def BTInt32 (bs : List Byte) : Int := toSigned 4 (beDecode bs)
/-- Modelled from the spec: `BTUint64`, big-endian decoding of a `uint64`. -/
def BTUint64 (bs : List Byte) : Nat := beDecode bs
/-- Modelled from the spec: `BTInt64`, big-endian decoding of an `int64`. -/
def BTInt64 (bs : List Byte) : Int := toSigned 8 (beDecode bs)

/-! ## The buffer -/

/-- `NewPacker`: a store of `defaultSize` zero bytes, both cursors at 0. -/
def NewPacker : BufferStream :=
  { vBuffer := List.replicate 2048 0, readIndex := 0, writeIndex := 0 }

namespace BufferStream

/-- `Len`: the allocated length of the store. -/
def Len (b : BufferStream) : Int := (b.vBuffer.length : Int)

/-- `EndOf`. -/
def EndOf (b : BufferStream) : Bool := decide (b.Len - b.readIndex ≤ 0)

/-- `Available`: the number of unread bytes. -/
def Available (b : BufferStream) : Int := b.writeIndex - b.readIndex

/-- `Bytes`: the whole store. -/
def Bytes (b : BufferStream) : List Byte := b.vBuffer

/-- `Resize`: returns the receiver after the call and the error. -/
def Resize (b : BufferStream) (newSize : Int) : BufferStream × Option String :=
  if newSize < b.Len + defaultSize then
    (b, some "NewSize is too short...")
  else
    let tmpData : List Byte := List.replicate newSize.toNat 0
    let tmpData := goCopy (tmpData.take b.Len.toNat) b.vBuffer ++ tmpData.drop b.Len.toNat
    ({ b with vBuffer := tmpData }, none)

/-- `Slice`. -/
def Slice (b : BufferStream) (startIndex endIndex : Int) : Option (List Byte) :=
  if startIndex ≥ b.Len ∨ startIndex = endIndex then
    some b.vBuffer
  else if endIndex > b.Len then
    goSlice b.vBuffer startIndex b.Len
  else
    goSlice b.vBuffer startIndex endIndex

/-- `Shift`: returns the receiver after the call and the error. -/
def Shift (b : BufferStream) (size : Int) : Option (BufferStream × Option String) :=
  if size > b.writeIndex then
    some (b, some "Shift Size is too big...")
  else
    match goSlice b.vBuffer size b.Len with
    | none => none
    | some rest =>
      some ({ vBuffer := goCopy b.vBuffer rest
              readIndex := b.readIndex - size
              writeIndex := b.writeIndex - size }, none)

/-- `Skip`: returns the receiver after the call and the error. -/
def Skip (b : BufferStream) (size : Int) : BufferStream × Option String :=
  if size > b.writeIndex then
    (b, some "Skip Size is too big...")
  else
    ({ b with readIndex := b.readIndex + size }, none)

/-- `Seek`: returns the receiver after the call and the error. -/
def Seek (b : BufferStream) (pos : Int) : BufferStream × Option String :=
  if pos > b.writeIndex then
    (b, some "Seek Pos OverFlow...")
  else if pos < 0 then
    (b, some "Unknow Seek Pos...")
  else
    ({ b with readIndex := pos }, none)

/-- `ReadPos`. -/
def ReadPos (b : BufferStream) : Int := b.readIndex

/-- `WritePos`. -/
def WritePos (b : BufferStream) : Int := b.writeIndex

/-- `PeekBytes`: the receiver is not modified. -/
def PeekBytes (b : BufferStream) (size : Int) : Option (List Byte) :=
  if size > b.Available then
    some []
  else
    goSlice b.vBuffer b.readIndex (b.readIndex + size)

/-- `Peek16`. -/
def Peek16 (b : BufferStream) : Option Nat := (b.PeekBytes 2).map BTUint16

/-- `Peek32`. -/
def Peek32 (b : BufferStream) : Option Nat := (b.PeekBytes 4).map BTUint32

/-- `GetBytes`: returns the receiver after the call and the bytes. -/
def GetBytes (b : BufferStream) (size : Int) : Option (BufferStream × List Byte) :=
  match b.PeekBytes size with
  | none => none
  | some r =>
    if r.length = 0 then some (b, r)
    else some ((b.Skip size).1, r)

/-- `Write`: returns the receiver after the call and the `int` result. -/
def Write (b : BufferStream) (buf : List Byte) (wlen : Int) : Option (BufferStream × Int) :=
  let endPos := b.writeIndex + wlen
  let grown : BufferStream × Option String :=
    if endPos > b.Len then b.Resize (endPos + defaultSize) else (b, none)
  match grown with
  | (b1, some _) => some (b1, -1)
  | (b1, none) =>
    match goCopyAt b1.vBuffer b1.writeIndex endPos buf with
    | none => none
    | some v => some ({ b1 with vBuffer := v, writeIndex := b1.writeIndex + wlen }, wlen)

/-- `WriteAuto`. -/
def WriteAuto (b : BufferStream) (buf : List Byte) : Option (BufferStream × Int) :=
  b.Write buf (buf.length : Int)

/-- `WriteUInt8`. -/
def WriteUInt8 (b : BufferStream) (v : Nat) : Option BufferStream :=
  (b.WriteAuto (U8TBytes v)).map Prod.fst

/-- `WriteInt8`. -/
def WriteInt8 (b : BufferStream) (v : Int) : Option BufferStream :=
  (b.WriteAuto (I8TBytes v)).map Prod.fst

/-- `WriteUInt16`. -/
def WriteUInt16 (b : BufferStream) (v : Nat) : Option BufferStream :=
  (b.WriteAuto (U16TBytes v)).map Prod.fst

/-- `WriteInt16`. -/
def WriteInt16 (b : BufferStream) (v : Int) : Option BufferStream :=
  (b.WriteAuto (I16TBytes v)).map Prod.fst

/-- `WriteUInt32`. -/
def WriteUInt32 (b : BufferStream) (v : Nat) : Option BufferStream :=
  (b.WriteAuto (U32TBytes v)).map Prod.fst

/-- `WriteInt32`. -/
def WriteInt32 (b : BufferStream) (v : Int) : Option BufferStream :=
  (b.WriteAuto (I32TBytes v)).map Prod.fst

/-- `WriteUInt64`. -/
def WriteUInt64 (b : BufferStream) (v : Nat) : Option BufferStream :=
  (b.WriteAuto (U64TBytes v)).map Prod.fst

/-- `WriteInt64`. -/
def WriteInt64 (b : BufferStream) (v : Int) : Option BufferStream :=
  (b.WriteAuto (I64TBytes v)).map Prod.fst

/-- `WriteString`: a Go string is its sequence of bytes. -/
def WriteString (b : BufferStream) (v : List Byte) : Option BufferStream :=
  (b.WriteAuto v).map Prod.fst

/-- `GetUint8`: returns the receiver after the call and the value. -/
def GetUint8 (b : BufferStream) : Option (BufferStream × Nat) :=
  (b.GetBytes 1).map (fun p => (p.1, BTUint8 p.2))

/-- `GetInt8`. -/
def GetInt8 (b : BufferStream) : Option (BufferStream × Int) :=
  (b.GetBytes 1).map (fun p => (p.1, BTInt8 p.2))

/-- `GetUint16`. -/
def GetUint16 (b : BufferStream) : Option (BufferStream × Nat) :=
  (b.GetBytes 2).map (fun p => (p.1, BTUint16 p.2))

/-- `GetInt16`. -/
def GetInt16 (b : BufferStream) : Option (BufferStream × Int) :=
  (b.GetBytes 2).map (fun p => (p.1, BTInt16 p.2))

/-- `GetUint32`. -/
def GetUint32 (b : BufferStream) : Option (BufferStream × Nat) :=
  (b.GetBytes 4).map (fun p => (p.1, BTUint32 p.2))

/-- `GetInt32`. -/
def GetInt32 (b : BufferStream) : Option (BufferStream × Int) :=
  (b.GetBytes 4).map (fun p => (p.1, BTInt32 p.2))

/-- `GetUint64`. -/
def GetUint64 (b : BufferStream) : Option (BufferStream × Nat) :=
  (b.GetBytes 8).map (fun p => (p.1, BTUint64 p.2))

/-- `GetInt64`. -/
def GetInt64 (b : BufferStream) : Option (BufferStream × Int) :=
  (b.GetBytes 8).map (fun p => (p.1, BTInt64 p.2))

/-- The loop `for i := pos; i < pos+wlen; i++ { b.vBuffer[i] = buf[i-pos] }` of
`ChangeAuto`, by recursion on the bytes of `buf` that remain; an index outside
the store panics. -/
def changeLoop (v : List Byte) (i : Int) : List Byte → Option (List Byte)
  | [] => some v
  | x :: xs =>
    if 0 ≤ i ∧ i < (v.length : Int) then changeLoop (v.set i.toNat x) (i + 1) xs
    else none

/-- `ChangeAuto` with an argument `buf` that shares no memory with the store:
returns the receiver after the call. -/
def ChangeAuto (b : BufferStream) (pos : Int) (buf : List Byte) : Option BufferStream :=
  let wlen : Int := (buf.length : Int)
  if pos + wlen > b.Len then
    some b
  else
    match changeLoop b.vBuffer pos buf with
    | none => none
    | some v => some { b with vBuffer := v }

/-- `ChangeUInt32`. -/
def ChangeUInt32 (b : BufferStream) (pos : Int) (v : Nat) : Option BufferStream :=
  b.ChangeAuto pos (U32TBytes v)

end BufferStream

open BufferStream in
/-- `BuildPacker`: a new buffer holding the 4-byte length of `body` and then
`body`. -/
def BuildPacker (body : List Byte) : Option BufferStream :=
  match NewPacker.WriteInt32 (toInt32 (body.length : Int)) with
  | none => none
  | some buf => (buf.WriteAuto body).map Prod.fst

namespace BufferStream

/-- `Unpack`: returns the receiver after the call, the returned buffer (`none`
is `nil`) and the error. -/
def Unpack (b : BufferStream) (shift : Bool) :
    Option (BufferStream × Option BufferStream × Option String) :=
  if b.Available < 4 then
    some (b, none, some "Pack Unready...")
  else
    match b.Peek32 with
    | none => none
    | some n =>
      let len : Int := (n : Int)
      if b.Available < len + 4 then
        some (b, none, some "Pack Unready...")
      else
        let b1 := (b.Skip 4).1
        match b1.GetBytes len with
        | none => none
        | some (b2, body) =>
          match BuildPacker body with
          | none => none
          | some buf =>
            if shift then
              match b2.Shift (4 + len) with
              | none => none
              | some (b3, _) => some (b3, some buf, none)
            else
              some (b2, some buf, none)

/-- `Packer`: returns the receiver after the call, the returned bytes and the
error. -/
def Packer (b : BufferStream) : Option (BufferStream × List Byte × Option String) :=
  if b.writeIndex < 4 then
    some (b, b.Bytes, some "No Data Need Package...")
  else
    match b.ChangeUInt32 0 (toUint32 b.writeIndex) with
    | none => none
    | some b1 =>
      match b1.Slice 0 b.writeIndex with
      | none => none
      | some buf => some (b1, buf, none)

end BufferStream

/-! ## Derived notions used by the statements -/

/-- The not-ready error of `Unpack`. -/
def notReady : Option String := some "Pack Unready..."

/-- The cursor invariant `0 ≤ readIndex ≤ writeIndex ≤ capacity`. -/
def Inv (b : BufferStream) : Prop :=
  0 ≤ b.readIndex ∧ b.readIndex ≤ b.writeIndex ∧ b.writeIndex ≤ b.Len

instance (b : BufferStream) : Decidable (Inv b) := by
  unfold Inv; exact inferInstance

/-- The storage bytes `[lo, hi)` of a buffer. -/
def seg (b : BufferStream) (lo hi : Int) : List Byte :=
  (b.vBuffer.drop lo.toNat).take (hi - lo).toNat

/-- The length prefix `Unpack` reads: the big-endian `uint32` stored at
`storage[readIndex, readIndex+4)`. -/
def prefixLen (b : BufferStream) : Int :=
  (BTUint32 (seg b b.readIndex (b.readIndex + 4)) : Int)

/-- The frame `[4-byte big-endian len(body)][body]` of the wire format. -/
def frame (body : List Byte) : List Byte :=
  U32TBytes body.length ++ body

/-- Successive `WriteAuto` calls, one for each chunk, with the values they
return. -/
def writeAll : BufferStream → List (List Byte) → Option (BufferStream × List Int)
  | b, [] => some (b, [])
  | b, c :: cs =>
    match b.WriteAuto c with
    | none => none
    | some (b1, r) =>
      match writeAll b1 cs with
      | none => none
      | some (b2, rs) => some (b2, r :: rs)

/-- `n` successive calls of `Unpack(true)`, each of which must succeed; returns the
receiver after the last call and the buffers returned, in order. -/
def unpackMany : BufferStream → Nat → Option (BufferStream × List BufferStream)
  | b, 0 => some (b, [])
  | b, n + 1 =>
    match b.Unpack true with
    | some (b1, some out, none) =>
      match unpackMany b1 n with
      | none => none
      | some (b2, outs) => some (b2, out :: outs)
    | _ => none

/-- The scenario of the pack example: `NewPacker()`, `WriteInt32(1000)`,
`WriteString("hello")`, then `Packer()`; the bytes and the error returned. -/
def packExample : Option (List Byte × Option String) :=
  match NewPacker.WriteInt32 1000 with
  | none => none
  | some b1 =>
    match b1.WriteString [104, 101, 108, 108, 111] with
    | none => none
    | some b2 => (b2.Packer).map Prod.snd

/-- The store `Write` copies into when its end position is `endPos`: the store
itself, or the store `Resize(endPos + defaultSize)` leaves when `endPos` exceeds
the capacity. -/
def storeForWrite (b : BufferStream) (endPos : Int) : List Byte :=
  if endPos > b.Len then (b.Resize (endPos + defaultSize)).1.vBuffer else b.vBuffer

/-! ## Aliasing: `ChangeAuto` on a view of the store -/

/-- The loop `for i := pos; i < pos+wlen; i++ { b.vBuffer[i] = buf[i-pos] }` of
`ChangeAuto` when `buf` is a view of the store itself: `buf[i-pos]` is the byte
the store holds at `src` at that moment of the loop.  `k` iterations remain. -/
def changeLoopView (v : List Byte) (i src : Int) : Nat → Option (List Byte)
  | 0 => some v
  | k + 1 =>
    if 0 ≤ i ∧ i < (v.length : Int) ∧ 0 ≤ src ∧ src < (v.length : Int) then
      changeLoopView (v.set i.toNat (v.getD src.toNat 0)) (i + 1) (src + 1) k
    else none

namespace BufferStream

/-- `ChangeAuto(pos, b.vBuffer[lo:hi])`: the argument is the view `[lo, hi)` of
the store (what `PeekBytes`, `GetBytes`, `Bytes` and `Slice` return). -/
def ChangeAutoView (b : BufferStream) (pos lo hi : Int) : Option BufferStream :=
  match goSlice b.vBuffer lo hi with
  | none => none
  | some buf =>
    let wlen : Int := (buf.length : Int)
    if pos + wlen > b.Len then
      some b
    else
      match changeLoopView b.vBuffer pos lo buf.length with
      | none => none
      | some v => some { b with vBuffer := v }

end BufferStream

/-! ## Machine integers and allocation -/

/-- The range of Go's `int64`, and of `int` on a 64-bit platform. -/
def isInt64 (x : Int) : Prop :=
  -9223372036854775808 ≤ x ∧ x < 9223372036854775808

instance (x : Int) : Decidable (isInt64 x) := by
  unfold isInt64; exact inferInstance

/-- What an `int64` computation keeps of the exact result `x`: the integer of
the range of `int64` that is congruent to `x` modulo `2^64`. -/
def wrapInt64 (x : Int) : Int :=
  (x + 9223372036854775808) % 18446744073709551616 - 9223372036854775808

/-- The constant `maxAlloc` of the Go runtime on 64-bit platforms, `2^48`
bytes: `make([]byte, n)` panics (`makeslice: len out of range`) above it. -/
def maxAlloc : Int := 281474976710656

/-- `make([]byte, n)` where the environment can provide `mem` bytes: `n` zero
bytes; `none`, the call does not return, when `n` is negative or exceeds
`maxAlloc` (a panic) or exceeds `mem` (out of memory). -/
def goMake (mem n : Int) : Option (List Byte) :=
  if 0 ≤ n ∧ n ≤ maxAlloc ∧ n ≤ mem then some (List.replicate n.toNat 0) else none

namespace Machine

open BufferStream

/-- `Resize` on machine integers, where the environment can provide `mem`
bytes: returns the receiver after the call and the error; `none` when `make`
does not return. -/
def Resize (mem : Int) (b : BufferStream) (newSize : Int) :
    Option (BufferStream × Option String) :=
  if newSize < wrapInt64 (b.Len + defaultSize) then
    some (b, some "NewSize is too short...")
  else
    match goMake mem newSize with
    | none => none
    | some tmpData =>
      match goCopyAt tmpData 0 b.Len b.vBuffer with
      | none => none
      | some v => some ({ b with vBuffer := v }, none)

/-- `Shift` on machine integers. -/
def Shift (b : BufferStream) (size : Int) : Option (BufferStream × Option String) :=
  if size > b.writeIndex then
    some (b, some "Shift Size is too big...")
  else
    match goSlice b.vBuffer size b.Len with
    | none => none
    | some rest =>
      some ({ vBuffer := goCopy b.vBuffer rest
              readIndex := wrapInt64 (b.readIndex - size)
              writeIndex := wrapInt64 (b.writeIndex - size) }, none)

/-- `Skip` on machine integers. -/
def Skip (b : BufferStream) (size : Int) : BufferStream × Option String :=
  if size > b.writeIndex then
    (b, some "Skip Size is too big...")
  else
    ({ b with readIndex := wrapInt64 (b.readIndex + size) }, none)

/-- `Write` on machine integers, where the environment can provide `mem` bytes:
returns the receiver after the call and the `int` result. -/
def Write (mem : Int) (b : BufferStream) (buf : List Byte) (wlen : Int) :
    Option (BufferStream × Int) :=
  let endPos := wrapInt64 (b.writeIndex + wlen)
  let grown : Option (BufferStream × Option String) :=
    if endPos > b.Len then Machine.Resize mem b (wrapInt64 (endPos + defaultSize))
    else some (b, none)
  match grown with
  | none => none
  | some (b1, some _) => some (b1, -1)
  | some (b1, none) =>
    match goCopyAt b1.vBuffer b1.writeIndex endPos buf with
    | none => none
    | some v =>
      some ({ b1 with vBuffer := v, writeIndex := wrapInt64 (b1.writeIndex + wlen) }, wlen)

end Machine

/-! ## Lemmas on the primitives -/

open BufferStream

theorem goCopy_same_len (dst src : List Byte) (h : dst.length = src.length) :
    goCopy dst src = src := by
  unfold goCopy
  rw [h, List.take_length, ← h, List.drop_length, List.append_nil]

theorem goSlice_ok (s : List Byte) (lo hi : Int) (h0 : 0 ≤ lo) (h1 : lo ≤ hi)
    (h2 : hi ≤ (s.length : Int)) :
    goSlice s lo hi = some ((s.drop lo.toNat).take (hi - lo).toNat) := by
  unfold goSlice
  rw [if_pos ⟨h0, h1, h2⟩]

theorem goCopyAt_eq (s : List Byte) (lo : Int) (src : List Byte) (h0 : 0 ≤ lo)
    (h1 : lo + (src.length : Int) ≤ (s.length : Int)) :
    goCopyAt s lo (lo + (src.length : Int)) src
      = some (s.take lo.toNat ++ src ++ s.drop (lo.toNat + src.length)) := by
  unfold goCopyAt
  rw [goSlice_ok s lo _ h0 (by omega) h1]
  have e1 : (lo + (src.length : Int) - lo).toNat = src.length := by omega
  have e2 : (lo + (src.length : Int)).toNat = lo.toNat + src.length := by omega
  simp only [e1, e2]
  rw [goCopy_same_len]
  rw [List.length_take, List.length_drop]
  omega

theorem Resize_ok (b : BufferStream) (newSize : Int) (h : b.Len + defaultSize ≤ newSize) :
    b.Resize newSize =
      ({ b with vBuffer := b.vBuffer ++ List.replicate (newSize.toNat - b.vBuffer.length) 0 },
        none) := by
  unfold Resize
  rw [if_neg (by omega)]
  have hl : b.Len.toNat = b.vBuffer.length := by unfold Len; omega
  have hn : b.vBuffer.length ≤ newSize.toNat := by
    unfold Len defaultSize at h; omega
  simp only [hl]
  congr 2
  unfold goCopy
  simp only [List.take_replicate, List.drop_replicate, List.length_replicate, List.length_take]
  rw [Nat.min_eq_left hn]
  simp

/-- What `WriteAuto` does on a buffer whose write cursor lies inside the store. -/
theorem WriteAuto_eq (b : BufferStream) (buf : List Byte) (h0 : 0 ≤ b.writeIndex) :
    b.WriteAuto buf =
      some ({ vBuffer :=
                (if b.writeIndex + (buf.length : Int) > b.Len then
                  b.vBuffer ++ List.replicate
                    ((b.writeIndex + (buf.length : Int) + defaultSize).toNat - b.vBuffer.length) 0
                 else b.vBuffer).take b.writeIndex.toNat ++ buf ++
                (if b.writeIndex + (buf.length : Int) > b.Len then
                  b.vBuffer ++ List.replicate
                    ((b.writeIndex + (buf.length : Int) + defaultSize).toNat - b.vBuffer.length) 0
                 else b.vBuffer).drop (b.writeIndex.toNat + buf.length)
              readIndex := b.readIndex
              writeIndex := b.writeIndex + (buf.length : Int) }, (buf.length : Int)) := by
  unfold WriteAuto Write
  by_cases hg : b.writeIndex + (buf.length : Int) > b.Len
  · simp only [hg, if_true]
    rw [Resize_ok b _ (by omega)]
    simp only
    rw [goCopyAt_eq _ _ _ h0]
    simp only [List.length_append, List.length_replicate]
    unfold Len defaultSize at *
    push_cast
    omega
  · simp only [hg, if_false]
    rw [goCopyAt_eq _ _ _ h0]
    unfold Len at *
    omega

/-- The properties of `WriteAuto` the framing proofs use. -/
theorem WriteAuto_spec (b : BufferStream) (buf : List Byte) (h0 : 0 ≤ b.writeIndex)
    (h1 : b.writeIndex ≤ b.Len) :
    ∃ b', b.WriteAuto buf = some (b', (buf.length : Int)) ∧
      b'.readIndex = b.readIndex ∧
      b'.writeIndex = b.writeIndex + (buf.length : Int) ∧
      b'.writeIndex ≤ b'.Len ∧
      b'.vBuffer.take b'.writeIndex.toNat = b.vBuffer.take b.writeIndex.toNat ++ buf := by
  refine ⟨_, WriteAuto_eq b buf h0, rfl, rfl, ?_, ?_⟩
  · simp only [Len] at *
    split_ifs with hg
    · simp only [List.length_append, List.length_take, List.length_drop, List.length_replicate]
      unfold defaultSize
      push_cast
      omega
    · simp only [List.length_append, List.length_take, List.length_drop]
      push_cast
      omega
  · simp only [Len] at *
    have e : (b.writeIndex + (buf.length : Int)).toNat = b.writeIndex.toNat + buf.length := by
      omega
    have hw : b.writeIndex.toNat ≤ b.vBuffer.length := by omega
    simp only [e]
    split_ifs with hg
    · rw [List.take_append_of_le_length hw]
      rw [List.take_append_eq_append_take]
      simp only [List.length_append, List.length_take]
      rw [Nat.min_eq_left hw]
      simp
    · rw [List.take_append_eq_append_take]
      simp only [List.length_append, List.length_take]
      rw [Nat.min_eq_left hw]
      simp

theorem PeekBytes_ok (b : BufferStream) (n : Int) (hr : 0 ≤ b.readIndex) (hn : 0 ≤ n)
    (ha : n ≤ b.Available) (hw : b.writeIndex ≤ b.Len) :
    b.PeekBytes n = some (seg b b.readIndex (b.readIndex + n)) := by
  unfold PeekBytes
  rw [if_neg (by omega)]
  unfold Available Len at *
  rw [goSlice_ok _ _ _ hr (by omega) (by omega)]
  rfl

theorem seg_length (b : BufferStream) (lo hi : Int) (h0 : 0 ≤ lo) (_h1 : lo ≤ hi)
    (h2 : hi ≤ b.Len) : (seg b lo hi).length = (hi - lo).toNat := by
  unfold seg
  unfold Len at h2
  rw [List.length_take, List.length_drop]
  omega

theorem GetBytes_ok (b : BufferStream) (n : Int) (hr : 0 ≤ b.readIndex) (hn : 0 ≤ n)
    (ha : n ≤ b.Available) (hw : b.writeIndex ≤ b.Len) :
    b.GetBytes n =
      some ({ b with readIndex := b.readIndex + n }, seg b b.readIndex (b.readIndex + n)) := by
  unfold GetBytes
  rw [PeekBytes_ok b n hr hn ha hw]
  have hl := seg_length b b.readIndex (b.readIndex + n) hr (by omega)
    (by unfold Available at ha; omega)
  simp only
  split_ifs with h
  · have : n = 0 := by omega
    subst this
    simp
  · unfold Skip
    unfold Available at ha
    rw [if_neg (by omega)]

theorem beEncode_length (w n : Nat) : (beEncode w n).length = w := by
  induction w generalizing n with
  | zero => rfl
  | succ k ih => simp [beEncode, ih]

theorem beDecode_append_one (xs : List Byte) (x : Byte) :
    beDecode (xs ++ [x]) = beDecode xs * 256 + x.val := by
  simp [beDecode, List.foldl_append]

theorem beDecode_beEncode (w n : Nat) : beDecode (beEncode w n) = n % 256 ^ w := by
  induction w generalizing n with
  | zero => simp [beEncode, beDecode, Nat.mod_one]
  | succ k ih =>
    rw [beEncode, beDecode_append_one, ih]
    have hv : (Fin.ofNat (n % 256) : Byte).val = n % 256 := by
      simp [Fin.ofNat]
    rw [hv, pow_succ, Nat.mul_comm (256 ^ k) 256, Nat.mod_mul]
    ring

theorem toInt32_small (n : Nat) (h : n < 2 ^ 31) : toInt32 (n : Int) = (n : Int) := by
  unfold toInt32
  norm_num at h
  omega

theorem toUnsigned_four_small (n : Nat) (h : n < 2 ^ 31) : toUnsigned 4 (n : Int) = n := by
  unfold toUnsigned
  norm_num at h ⊢
  omega

theorem I32TBytes_len (n : Nat) (h : n < 2 ^ 31) :
    I32TBytes (toInt32 (n : Int)) = U32TBytes n := by
  unfold I32TBytes U32TBytes
  rw [toInt32_small n h, toUnsigned_four_small n h]

theorem Shift_ok (b : BufferStream) (n : Int) (h0 : 0 ≤ n) (h1 : n ≤ b.writeIndex)
    (h2 : b.writeIndex ≤ b.Len) :
    b.Shift n =
      some ({ vBuffer := b.vBuffer.drop n.toNat ++ b.vBuffer.drop (b.vBuffer.length - n.toNat)
              readIndex := b.readIndex - n
              writeIndex := b.writeIndex - n }, none) := by
  unfold Shift
  rw [if_neg (by omega)]
  unfold Len at *
  rw [goSlice_ok _ _ _ h0 (by omega) (le_refl _)]
  simp only
  congr 3
  unfold goCopy
  have e : ((b.vBuffer.length : Int) - n).toNat = (b.vBuffer.drop n.toNat).length := by
    rw [List.length_drop]; omega
  rw [e, List.take_length, List.length_drop]
  congr 1
  rw [List.take_of_length_le (by rw [List.length_drop]; omega)]

theorem BuildPacker_spec (body : List Byte) :
    ∃ out, BuildPacker body = some out ∧ out.readIndex = 0 ∧
      out.writeIndex = 4 + (body.length : Int) ∧ out.writeIndex ≤ out.Len ∧
      out.vBuffer.take (4 + body.length) = I32TBytes (toInt32 (body.length : Int)) ++ body := by
  obtain ⟨b1, e1, r1, w1, l1, t1⟩ :=
    WriteAuto_spec NewPacker (I32TBytes (toInt32 (body.length : Int))) (le_refl _)
      (by decide)
  have hlen : (I32TBytes (toInt32 (body.length : Int))).length = 4 := beEncode_length _ _
  rw [hlen] at e1 w1
  have w1' : b1.writeIndex = 4 := by rw [w1]; rfl
  obtain ⟨b2, e2, r2, w2, l2, t2⟩ := WriteAuto_spec b1 body (by omega) l1
  refine ⟨b2, ?_, ?_, ?_, l2, ?_⟩
  · unfold BuildPacker WriteInt32
    rw [e1]
    simp only [Option.map_some']
    rw [e2]
    rfl
  · rw [r2, r1]; rfl
  · rw [w2, w1']
  · rw [w2, w1'] at t2
    have e : (4 + (body.length : Int)).toNat = 4 + body.length := by omega
    have z : NewPacker.writeIndex.toNat = 0 := rfl
    rw [z, List.take_zero, List.nil_append, w1'] at t1
    rw [e, t1] at t2
    exact t2

theorem Peek32_ok (b : BufferStream) (hi : Inv b) (ha : 4 ≤ b.Available) :
    b.Peek32 = some (BTUint32 (seg b b.readIndex (b.readIndex + 4))) := by
  unfold Peek32
  rw [PeekBytes_ok b 4 hi.1 (by omega) ha hi.2.2]
  rfl

theorem Unpack_notReady (b : BufferStream) (shift : Bool) (hi : Inv b)
    (h : b.Available < 4 ∨ b.Available < prefixLen b + 4) :
    b.Unpack shift = some (b, none, notReady) := by
  unfold Unpack
  by_cases h4 : b.Available < 4
  · rw [if_pos h4]; rfl
  · rw [if_neg h4, Peek32_ok b hi (by omega)]
    have h' : b.Available < prefixLen b + 4 := by omega
    unfold prefixLen at h'
    simp only
    rw [if_pos h']
    rfl

theorem Unpack_ready (b : BufferStream) (shift : Bool) (hi : Inv b)
    (h4 : 4 ≤ b.Available) (hL : prefixLen b + 4 ≤ b.Available) :
    ∃ out, BuildPacker (seg b (b.readIndex + 4) (b.readIndex + 4 + prefixLen b)) = some out ∧
      b.Unpack shift =
        some (if shift then
                { vBuffer := b.vBuffer.drop (4 + prefixLen b).toNat ++
                    b.vBuffer.drop (b.vBuffer.length - (4 + prefixLen b).toNat)
                  readIndex := b.readIndex
                  writeIndex := b.writeIndex - (4 + prefixLen b) }
              else { b with readIndex := b.readIndex + 4 + prefixLen b },
              some out, none) := by
  obtain ⟨hr, hrw, hwl⟩ := hi
  obtain ⟨out, hout, -⟩ :=
    BuildPacker_spec (seg b (b.readIndex + 4) (b.readIndex + 4 + prefixLen b))
  refine ⟨out, hout, ?_⟩
  have hLn : 0 ≤ prefixLen b := by unfold prefixLen; omega
  unfold Unpack
  rw [if_neg (by omega), Peek32_ok b ⟨hr, hrw, hwl⟩ h4]
  simp only
  have hL' : ¬ b.Available < (BTUint32 (seg b b.readIndex (b.readIndex + 4)) : Int) + 4 := by
    unfold prefixLen at hL; omega
  rw [if_neg hL']
  have hs : (b.Skip 4).1 = { b with readIndex := b.readIndex + 4 } := by
    unfold Skip
    unfold Available at h4
    rw [if_neg (by omega)]
  rw [hs]
  unfold Available at h4 hL
  rw [GetBytes_ok { b with readIndex := b.readIndex + 4 }
    (BTUint32 (seg b b.readIndex (b.readIndex + 4)) : Int)
    (by simp only; omega) (by omega)
    (by unfold Available prefixLen at *; simp only; omega) hwl]
  simp only
  have hseg : seg { b with readIndex := b.readIndex + 4 } (b.readIndex + 4)
      (b.readIndex + 4 + (BTUint32 (seg b b.readIndex (b.readIndex + 4)) : Int))
      = seg b (b.readIndex + 4) (b.readIndex + 4 + prefixLen b) := rfl
  rw [hseg, hout]
  simp only
  cases shift
  · simp only [Bool.false_eq_true, if_false]
    rfl
  · simp only [if_true]
    rw [Shift_ok { b with readIndex := b.readIndex + 4 +
        (BTUint32 (seg b b.readIndex (b.readIndex + 4)) : Int) } _ (by omega)
      (by unfold prefixLen at hL; simp only; omega) hwl]
    have e : ∀ x : Int, b.readIndex + 4 + x - (4 + x) = b.readIndex := by intro x; ring
    simp only [prefixLen, e]

/-- Reading a segment off a known prefix of the store. -/
theorem seg_of_take (b : BufferStream) (m : Nat) (pre mid post : List Byte)
    (h : b.vBuffer.take m = pre ++ mid ++ post) :
    seg b (pre.length : Int) ((pre.length : Int) + (mid.length : Int)) = mid := by
  unfold seg
  have e1 : ((pre.length : Int) + (mid.length : Int) - (pre.length : Int)).toNat = mid.length := by
    omega
  rw [e1, Int.toNat_ofNat]
  have hv : b.vBuffer = pre ++ mid ++ post ++ b.vBuffer.drop m := by
    rw [← h, List.take_append_drop]
  rw [hv]
  simp

theorem prefixLen_of_take (b : BufferStream) (m n : Nat) (rest : List Byte)
    (hr : b.readIndex = 0) (hn : n < 2 ^ 32)
    (h : b.vBuffer.take m = U32TBytes n ++ rest) : prefixLen b = (n : Int) := by
  unfold prefixLen
  rw [hr]
  have h' : b.vBuffer.take m = [] ++ U32TBytes n ++ rest := by simpa using h
  have hs := seg_of_take b m [] (U32TBytes n) rest h'
  have hl : (U32TBytes n).length = 4 := beEncode_length _ _
  rw [hl] at hs
  have hs' : seg b 0 (0 + 4) = U32TBytes n := hs
  rw [hs']
  unfold BTUint32 U32TBytes
  rw [beDecode_beEncode]
  congr 1
  exact Nat.mod_eq_of_lt (by norm_num at hn ⊢; exact hn)

/-! ## Streams of writes and of frames -/

/-- Successive `WriteAuto` calls append the chunks to the written part of the
store and return the chunk lengths. -/
theorem writeAll_spec (cs : List (List Byte)) (b : BufferStream) (h0 : 0 ≤ b.writeIndex)
    (h1 : b.writeIndex ≤ b.Len) :
    ∃ b' rets, writeAll b cs = some (b', rets) ∧
      rets = cs.map (fun c => (c.length : Int)) ∧
      b'.readIndex = b.readIndex ∧
      b'.writeIndex = b.writeIndex + (cs.flatten.length : Int) ∧
      b'.writeIndex ≤ b'.Len ∧
      b'.vBuffer.take b'.writeIndex.toNat = b.vBuffer.take b.writeIndex.toNat ++ cs.flatten := by
  induction cs generalizing b with
  | nil =>
    refine ⟨b, [], rfl, rfl, rfl, ?_, h1, ?_⟩
    · simp
    · simp
  | cons c cs ih =>
    obtain ⟨b1, e1, r1, w1, l1, t1⟩ := WriteAuto_spec b c h0 h1
    obtain ⟨b2, rets, e2, hrets, r2, w2, l2, t2⟩ := ih b1 (by omega) l1
    refine ⟨b2, (c.length : Int) :: rets, ?_, ?_, ?_, ?_, l2, ?_⟩
    · simp only [writeAll, e1, e2]
    · rw [hrets]; rfl
    · rw [r2, r1]
    · rw [w2, w1, List.flatten_cons, List.length_append]
      push_cast
      ring
    · rw [t2, t1, List.flatten_cons, List.append_assoc]

/-- The written part of the store after a successful shift in `Unpack`. -/
theorem take_shifted (v : List Byte) (w k : Nat) (hk : k ≤ w) (hw : w ≤ v.length) :
    (v.drop k ++ v.drop (v.length - k)).take (w - k) = (v.take w).drop k := by
  rw [List.take_append_of_le_length (by rw [List.length_drop]; omega), List.drop_take]

/-- The buffer `BuildPacker` returns carries the header and the body. -/
theorem BuildPacker_carries (body : List Byte) (h : body.length < 2 ^ 31) :
    ∃ out, BuildPacker body = some out ∧ out.readIndex = 0 ∧
      out.writeIndex = 4 + (body.length : Int) ∧ out.writeIndex ≤ out.Len ∧
      seg out 0 4 = U32TBytes body.length ∧
      seg out 4 (4 + (body.length : Int)) = body := by
  obtain ⟨out, hout, hr, hw, hl, ht⟩ := BuildPacker_spec body
  rw [I32TBytes_len _ h] at ht
  have hlen : (U32TBytes body.length).length = 4 := beEncode_length _ _
  refine ⟨out, hout, hr, hw, hl, ?_, ?_⟩
  · have := seg_of_take out _ [] (U32TBytes body.length) body (by simpa using ht)
    rw [hlen] at this
    exact this
  · have := seg_of_take out _ (U32TBytes body.length) body [] (by simpa using ht)
    rw [hlen] at this
    exact this

/-- One `Unpack` on a buffer whose unread part starts at 0 with a whole frame. -/
theorem Unpack_front (b : BufferStream) (shift : Bool) (body rest : List Byte)
    (hlen : body.length < 2 ^ 31) (hr : b.readIndex = 0) (hw0 : 0 ≤ b.writeIndex)
    (hwl : b.writeIndex ≤ b.Len)
    (ht : b.vBuffer.take b.writeIndex.toNat = frame body ++ rest) :
    ∃ out, BuildPacker body = some out ∧
      seg out 0 4 = U32TBytes body.length ∧
      seg out 4 (4 + (body.length : Int)) = body ∧
      out.writeIndex = 4 + (body.length : Int) ∧
      b.Unpack shift =
        some (if shift then
                { vBuffer := b.vBuffer.drop (4 + body.length) ++
                    b.vBuffer.drop (b.vBuffer.length - (4 + body.length))
                  readIndex := 0
                  writeIndex := b.writeIndex - (4 + (body.length : Int)) }
              else { b with readIndex := 4 + (body.length : Int) },
              some out, none) ∧
      b.writeIndex = 4 + (body.length : Int) + (rest.length : Int) := by
  have h4 : (U32TBytes body.length).length = 4 := beEncode_length _ _
  have hwlen : b.writeIndex = 4 + (body.length : Int) + (rest.length : Int) := by
    have := congrArg List.length ht
    unfold Len at hwl
    rw [List.length_take, List.length_append, frame, List.length_append, h4] at this
    omega
  have hinv : Inv b := ⟨by omega, by omega, hwl⟩
  unfold frame at ht
  have hp : prefixLen b = (body.length : Int) :=
    prefixLen_of_take b _ body.length (body ++ rest) hr (by norm_num at hlen ⊢; omega)
      (by rw [ht, List.append_assoc])
  have hbody : seg b 4 (4 + (body.length : Int)) = body := by
    have := seg_of_take b _ (U32TBytes body.length) body rest ht
    rw [h4] at this
    exact this
  obtain ⟨out, hout, hun⟩ := Unpack_ready b shift hinv
    (by unfold Available; omega) (by unfold Available; omega)
  rw [hr, hp] at hout hun
  have e0 : (0 : Int) + 4 = 4 := rfl
  rw [e0, hbody] at hout
  obtain ⟨out', hout', -, hw', -, hh, hb⟩ := BuildPacker_carries body hlen
  rw [hout] at hout'
  have : out = out' := Option.some.inj hout'
  subst this
  refine ⟨out, hout, hh, hb, hw', ?_, hwlen⟩
  rw [hun]
  have e1 : (4 + (body.length : Int)).toNat = 4 + body.length := by omega
  rw [e1, e0]

/-- Walking a stream: `Unpack(true)` once for every frame written. -/
theorem unpackMany_walk (bodies : List (List Byte)) (b : BufferStream)
    (hlen : ∀ x ∈ bodies, x.length < 2 ^ 31) (hr : b.readIndex = 0)
    (hw0 : 0 ≤ b.writeIndex) (hwl : b.writeIndex ≤ b.Len)
    (ht : b.vBuffer.take b.writeIndex.toNat = (bodies.map frame).flatten) :
    ∃ b1 outs, unpackMany b bodies.length = some (b1, outs) ∧
      List.Forall₂ (fun out body => seg out 4 (4 + (body.length : Int)) = body) outs bodies ∧
      b1.readIndex = 0 ∧ b1.writeIndex = 0 ∧ b1.writeIndex ≤ b1.Len := by
  induction bodies generalizing b with
  | nil =>
    refine ⟨b, [], rfl, List.Forall₂.nil, hr, ?_, hwl⟩
    have := congrArg List.length ht
    unfold Len at hwl
    simp only [List.map_nil, List.flatten_nil, List.length_nil, List.length_take] at this
    omega
  | cons x xs ih =>
    rw [List.map_cons, List.flatten_cons] at ht
    obtain ⟨out, -, -, hb, -, hun, hwlen⟩ :=
      Unpack_front b true x _ (hlen x (List.mem_cons_self _ _)) hr hw0 hwl ht
    simp only [if_true] at hun
    have hwl' : b.writeIndex.toNat ≤ b.vBuffer.length := by unfold Len at hwl; omega
    obtain ⟨b1, outs, e1, f1, r1, w1, l1⟩ := ih
      { vBuffer := b.vBuffer.drop (4 + x.length) ++
          b.vBuffer.drop (b.vBuffer.length - (4 + x.length))
        readIndex := 0
        writeIndex := b.writeIndex - (4 + (x.length : Int)) }
      (fun y hy => hlen y (List.mem_cons_of_mem _ hy)) rfl
      (by simp only; omega)
      (by simp only [Len, List.length_append, List.length_drop]; unfold Len at hwl; omega)
      (by
        simp only
        have e : (b.writeIndex - (4 + (x.length : Int))).toNat
            = b.writeIndex.toNat - (4 + x.length) := by omega
        rw [e, take_shifted _ _ _ (by omega) hwl', ht]
        have h4 : (frame x).length = 4 + x.length := by
          unfold frame
          rw [List.length_append]
          have : (U32TBytes x.length).length = 4 := beEncode_length _ _
          omega
        rw [← h4, List.drop_left])
    refine ⟨b1, out :: outs, ?_, List.Forall₂.cons hb f1, r1, w1, l1⟩
    simp only [List.length_cons, unpackMany, hun, e1]

theorem flatten_map_singleton (xs : List Byte) :
    (xs.map (fun x => [x])).flatten = xs := by
  induction xs with
  | nil => rfl
  | cons x xs ih => rw [List.map_cons, List.flatten_cons, ih]; rfl

theorem frame_length (body : List Byte) : (frame body).length = 4 + body.length := by
  unfold frame
  rw [List.length_append]
  have : (U32TBytes body.length).length = 4 := beEncode_length _ _
  omega

/-! ## Patching and packing -/

/-- The loop of `ChangeAuto` overwrites `buf.length` bytes from `i` on, when
they lie inside the store. -/
theorem changeLoop_eq (buf : List Byte) (v : List Byte) (i : Nat)
    (h : i + buf.length ≤ v.length) :
    changeLoop v (i : Int) buf = some (v.take i ++ buf ++ v.drop (i + buf.length)) := by
  induction buf generalizing v i with
  | nil => simp [changeLoop]
  | cons x xs ih =>
    rw [List.length_cons] at h
    unfold changeLoop
    rw [if_pos ⟨by omega, by omega⟩]
    have e : ((i : Int) + 1) = ((i + 1 : Nat) : Int) := by push_cast; rfl
    rw [e, ih (v.set (i : Int).toNat x) (i + 1) (by rw [List.length_set]; omega)]
    rw [Int.toNat_ofNat]
    congr 1
    have hi : i < v.length := by omega
    rw [List.length_cons]
    have e2 : i + 1 + xs.length = i + (xs.length + 1) := by omega
    rw [e2, List.drop_set_of_lt _ _ (by omega : i < i + (xs.length + 1))]
    congr 1
    rw [List.set_eq_take_append_cons_drop, if_pos hi]
    have hl : (v.take i ++ [x]).length = i + 1 := by
      rw [List.length_append, List.length_take, Nat.min_eq_left (by omega)]; rfl
    have hc : v.take i ++ x :: v.drop (i + 1) = (v.take i ++ [x]) ++ v.drop (i + 1) := by
      simp
    rw [hc, List.take_left' hl]
    simp

/-- What `Packer` does once at least 4 bytes have been written. -/
theorem Packer_ok (b : BufferStream) (h4 : 4 ≤ b.writeIndex) (hwl : b.writeIndex ≤ b.Len) :
    b.Packer =
      some ({ b with vBuffer := U32TBytes (toUint32 b.writeIndex) ++ b.vBuffer.drop 4 },
            (U32TBytes (toUint32 b.writeIndex) ++ b.vBuffer.drop 4).take b.writeIndex.toNat,
            none) := by
  have hl : (U32TBytes (toUint32 b.writeIndex)).length = 4 := beEncode_length _ _
  have hlen : 4 ≤ b.vBuffer.length := by unfold Len at hwl; omega
  have hch : b.ChangeUInt32 0 (toUint32 b.writeIndex) =
      some { b with vBuffer := U32TBytes (toUint32 b.writeIndex) ++ b.vBuffer.drop 4 } := by
    unfold ChangeUInt32 ChangeAuto
    simp only [hl]
    rw [if_neg (by unfold Len; push_cast; omega)]
    have := changeLoop_eq (U32TBytes (toUint32 b.writeIndex)) b.vBuffer 0 (by rw [hl]; omega)
    rw [hl] at this
    have e : ((0 : Nat) : Int) = 0 := rfl
    rw [e] at this
    rw [this]
    simp
  unfold Packer
  rw [if_neg (by omega), hch]
  simp only
  unfold Slice
  have hlen' : (U32TBytes (toUint32 b.writeIndex) ++ b.vBuffer.drop 4).length
      = b.vBuffer.length := by
    rw [List.length_append, hl, List.length_drop]; omega
  simp only [Len, hlen']
  unfold Len at hwl
  rw [if_neg (by omega), if_neg (by omega), goSlice_ok _ _ _ (le_refl _) (by omega)
    (by rw [hlen']; exact hwl)]
  simp

theorem toUint32_small (w : Int) (h0 : 0 ≤ w) (h : w < 2 ^ 32) : toUint32 w = w.toNat := by
  unfold toUint32
  norm_num at h
  omega

/-- The pack example, evaluated. -/
theorem packExample_eq :
    packExample = some ([0, 0, 0, 9, 104, 101, 108, 108, 111], none) := by
  obtain ⟨b1, e1, -, w1, l1, t1⟩ :=
    WriteAuto_spec NewPacker (I32TBytes 1000) (le_refl _) (by decide)
  have z : NewPacker.writeIndex.toNat = 0 := rfl
  have w1' : b1.writeIndex = 4 := w1
  rw [z, List.take_zero, List.nil_append, w1'] at t1
  obtain ⟨b2, e2, -, w2, l2, t2⟩ :=
    WriteAuto_spec b1 [104, 101, 108, 108, 111] (by omega) l1
  have w2' : b2.writeIndex = 9 := by rw [w2, w1']; rfl
  rw [w2', w1', t1] at t2
  unfold packExample WriteInt32 WriteString
  rw [e1]
  simp only [Option.map_some']
  rw [e2]
  simp only [Option.map_some']
  rw [Packer_ok b2 (by omega) l2]
  simp only [Option.map_some', w2']
  have e9 : (9 : Int).toNat = 4 + 5 := rfl
  have hu : U32TBytes (toUint32 9) = [0, 0, 0, 9] := by decide
  have ht : (I32TBytes 1000 ++ [104, 101, 108, 108, 111] : List Byte)
      = [0, 0, 3, 232, 104, 101, 108, 108, 111] := by decide
  have hd : (b2.vBuffer.drop 4).take 5 = [104, 101, 108, 108, 111] := by
    rw [List.take_drop]
    have : (9 : Int).toNat = 4 + 5 := rfl
    rw [this, ht] at t2
    rw [t2]
    rfl
  rw [hu, e9, List.take_append_eq_append_take]
  simp only [List.length_cons, List.length_nil]
  rw [show 4 + 5 - (0 + 1 + 1 + 1 + 1) = 5 from rfl, hd]
  rfl

/-! ## Typed accessors -/

/-- Writing a non-empty byte sequence at the read cursor and taking as many
bytes returns that sequence. -/
theorem write_then_get (b : BufferStream) (enc : List Byte) (hpos : 0 < enc.length)
    (h0 : 0 ≤ b.readIndex) (hrw : b.readIndex = b.writeIndex) (hwl : b.writeIndex ≤ b.Len) :
    ∃ b1 b2, b.WriteAuto enc = some (b1, (enc.length : Int)) ∧
      b1.GetBytes (enc.length : Int) = some (b2, enc) ∧
      b2.readIndex = b.readIndex + (enc.length : Int) ∧
      b2.writeIndex = b.writeIndex + (enc.length : Int) := by
  obtain ⟨b1, e1, r1, w1, l1, t1⟩ := WriteAuto_spec b enc (by omega) hwl
  refine ⟨b1, { b1 with readIndex := b1.readIndex + (enc.length : Int) }, e1, ?_, ?_, w1⟩
  · rw [GetBytes_ok b1 _ (by omega) (by omega) (by unfold Available; omega) l1]
    have hpre : ((b.vBuffer.take b.writeIndex.toNat).length : Int) = b1.readIndex := by
      unfold Len at hwl
      rw [List.length_take]
      omega
    have := seg_of_take b1 _ (b.vBuffer.take b.writeIndex.toNat) enc []
      (by rw [t1, List.append_nil])
    rw [hpre] at this
    rw [this]
  · simp only [r1]

theorem unsigned_round_trip (w v : Nat) (h : v < 256 ^ w) :
    beDecode (beEncode w v) = v := by
  rw [beDecode_beEncode, Nat.mod_eq_of_lt h]

theorem signed_round_trip (w : Nat) (v : Int)
    (hlo : -((256 ^ w : Nat) : Int) ≤ 2 * v) (hhi : 2 * v < ((256 ^ w : Nat) : Int)) :
    toSigned w (beDecode (beEncode w (toUnsigned w v))) = v := by
  have hM : 0 < 256 ^ w := Nat.pow_pos (by norm_num)
  have hMi : (0 : Int) < ((256 ^ w : Nat) : Int) := by exact_mod_cast hM
  have hlt : toUnsigned w v < 256 ^ w := by
    unfold toUnsigned
    have := Int.emod_lt_of_pos v hMi
    have := Int.emod_nonneg v (ne_of_gt hMi)
    omega
  rw [unsigned_round_trip w _ hlt]
  unfold toSigned toUnsigned
  have hnn := Int.emod_nonneg v (ne_of_gt hMi)
  by_cases hv : 0 ≤ v
  · have e : v % ((256 ^ w : Nat) : Int) = v := Int.emod_eq_of_lt hv (by omega)
    rw [e]
    rw [if_pos (by omega)]
    omega
  · have e : v % ((256 ^ w : Nat) : Int) = v + ((256 ^ w : Nat) : Int) := by
      rw [← Int.add_emod_self]
      exact Int.emod_eq_of_lt (by omega) (by omega)
    rw [e]
    rw [if_neg (by omega)]
    omega

/-! ## The cursor invariant -/

theorem goCopy_length (dst src : List Byte) : (goCopy dst src).length = dst.length := by
  unfold goCopy
  rw [List.length_append, List.length_take, List.length_drop]
  omega

theorem goSlice_some (s : List Byte) (lo hi : Int) (r : List Byte)
    (h : goSlice s lo hi = some r) :
    0 ≤ lo ∧ lo ≤ hi ∧ hi ≤ (s.length : Int) ∧ (r.length : Int) = hi - lo := by
  unfold goSlice at h
  split_ifs at h with hc
  obtain ⟨h0, h1, h2⟩ := hc
  have := Option.some.inj h
  subst this
  refine ⟨h0, h1, h2, ?_⟩
  rw [List.length_take, List.length_drop]
  omega

theorem goCopyAt_some (s : List Byte) (lo hi : Int) (src v : List Byte)
    (h : goCopyAt s lo hi src = some v) :
    0 ≤ lo ∧ lo ≤ hi ∧ hi ≤ (s.length : Int) ∧ v.length = s.length := by
  unfold goCopyAt at h
  cases hs : goSlice s lo hi with
  | none => rw [hs] at h; exact absurd h (by simp)
  | some dst =>
    rw [hs] at h
    obtain ⟨h0, h1, h2, h3⟩ := goSlice_some s lo hi dst hs
    have := Option.some.inj h
    subst this
    refine ⟨h0, h1, h2, ?_⟩
    simp only [List.length_append, List.length_take, List.length_drop, goCopy_length]
    omega

theorem changeLoop_length (buf : List Byte) (v : List Byte) (i : Int) (v' : List Byte)
    (h : changeLoop v i buf = some v') : v'.length = v.length := by
  induction buf generalizing v i with
  | nil =>
    unfold changeLoop at h
    rw [← Option.some.inj h]
  | cons x xs ih =>
    unfold changeLoop at h
    split_ifs at h with hc
    rw [ih _ _ h, List.length_set]

theorem Resize_inv (b : BufferStream) (n : Int) (hi : Inv b) : Inv (b.Resize n).1 := by
  unfold Resize
  split_ifs with h
  · exact hi
  · obtain ⟨h0, h1, h2⟩ := hi
    refine ⟨h0, h1, ?_⟩
    unfold Len defaultSize at *
    simp only [List.length_append, List.length_take, List.length_drop, List.length_replicate,
      goCopy_length]
    omega

theorem Seek_inv (b : BufferStream) (n : Int) (hi : Inv b) : Inv (b.Seek n).1 := by
  unfold Seek
  split_ifs with h1 h2
  · exact hi
  · exact hi
  · obtain ⟨h0, h1', h2'⟩ := hi
    exact ⟨by simp only; omega, by simp only; omega, h2'⟩

theorem GetBytes_inv (b : BufferStream) (n : Int) (b' : BufferStream) (r : List Byte)
    (hi : Inv b) (h : b.GetBytes n = some (b', r)) : Inv b' := by
  unfold GetBytes at h
  cases hp : b.PeekBytes n with
  | none => rw [hp] at h; exact absurd h (by simp)
  | some bytes =>
    rw [hp] at h
    simp only at h
    split_ifs at h with hz
    · have := Option.some.inj h
      rw [← (Prod.mk.inj this).1]
      exact hi
    · have := Option.some.inj h
      rw [← (Prod.mk.inj this).1]
      unfold PeekBytes at hp
      split_ifs at hp with ha
      · have := Option.some.inj hp
        subst this
        exact absurd rfl hz
      · obtain ⟨g0, g1, g2, -⟩ := goSlice_some _ _ _ _ hp
        obtain ⟨h0, h1, h2⟩ := hi
        unfold Available at ha
        unfold Skip
        rw [if_neg (by omega)]
        exact ⟨by simp only; omega, by simp only; omega, h2⟩

theorem Write_inv (b : BufferStream) (buf : List Byte) (n : Int) (b' : BufferStream) (k : Int)
    (hi : Inv b) (h : b.Write buf n = some (b', k)) : Inv b' := by
  obtain ⟨h0, h1, h2⟩ := hi
  unfold Write at h
  by_cases hg : b.writeIndex + n > b.Len
  · simp only [hg, if_true] at h
    rw [Resize_ok b _ (by omega)] at h
    simp only at h
    cases hc : goCopyAt (b.vBuffer ++ List.replicate
        ((b.writeIndex + n + defaultSize).toNat - b.vBuffer.length) 0) b.writeIndex
        (b.writeIndex + n) buf with
    | none => rw [hc] at h; exact absurd h (by simp)
    | some v =>
      rw [hc] at h
      obtain ⟨g0, g1, g2, g3⟩ := goCopyAt_some _ _ _ _ _ hc
      have := Option.some.inj h
      rw [← (Prod.mk.inj this).1]
      refine ⟨h0, by simp only; omega, ?_⟩
      simp only [Len, g3]
      exact g2
  · simp only [hg, if_false] at h
    cases hc : goCopyAt b.vBuffer b.writeIndex (b.writeIndex + n) buf with
    | none => rw [hc] at h; exact absurd h (by simp)
    | some v =>
      rw [hc] at h
      obtain ⟨g0, g1, g2, g3⟩ := goCopyAt_some _ _ _ _ _ hc
      have := Option.some.inj h
      rw [← (Prod.mk.inj this).1]
      refine ⟨h0, by simp only; omega, ?_⟩
      simp only [Len, g3]
      exact g2

theorem ChangeAuto_inv (b : BufferStream) (pos : Int) (buf : List Byte) (b' : BufferStream)
    (hi : Inv b) (h : b.ChangeAuto pos buf = some b') : Inv b' := by
  unfold ChangeAuto at h
  simp only at h
  split_ifs at h with hc
  · rw [← Option.some.inj h]; exact hi
  · cases hl : changeLoop b.vBuffer pos buf with
    | none => rw [hl] at h; exact absurd h (by simp)
    | some v =>
      rw [hl] at h
      rw [← Option.some.inj h]
      obtain ⟨h0, h1, h2⟩ := hi
      refine ⟨h0, h1, ?_⟩
      simp only [Len, changeLoop_length _ _ _ _ hl]
      exact h2

theorem Unpack_inv (b : BufferStream) (shift : Bool) (b' : BufferStream)
    (out : Option BufferStream) (err : Option String) (hi : Inv b)
    (h : b.Unpack shift = some (b', out, err)) : Inv b' := by
  by_cases hc : b.Available < 4 ∨ b.Available < prefixLen b + 4
  · rw [Unpack_notReady b shift hi hc] at h
    rw [← (Prod.mk.inj (Option.some.inj h)).1]
    exact hi
  · obtain ⟨o, -, hun⟩ := Unpack_ready b shift hi (by omega) (by omega)
    rw [hun] at h
    rw [← (Prod.mk.inj (Option.some.inj h)).1]
    obtain ⟨h0, h1, h2⟩ := hi
    have hL : 0 ≤ prefixLen b := by unfold prefixLen; omega
    unfold Available at hc
    cases shift
    · simp only [Bool.false_eq_true, if_false]
      exact ⟨by simp only; omega, by simp only; omega, h2⟩
    · simp only [if_true]
      refine ⟨h0, by simp only; omega, ?_⟩
      unfold Len at *
      simp only [List.length_append, List.length_drop]
      omega

theorem Packer_inv (b : BufferStream) (b' : BufferStream) (out : List Byte)
    (err : Option String) (hi : Inv b) (h : b.Packer = some (b', out, err)) : Inv b' := by
  by_cases h4 : b.writeIndex < 4
  · unfold Packer at h
    rw [if_pos h4] at h
    rw [← (Prod.mk.inj (Option.some.inj h)).1]
    exact hi
  · rw [Packer_ok b (by omega) hi.2.2] at h
    rw [← (Prod.mk.inj (Option.some.inj h)).1]
    obtain ⟨h0, h1, h2⟩ := hi
    refine ⟨h0, h1, ?_⟩
    have hl : (U32TBytes (toUint32 b.writeIndex)).length = 4 := beEncode_length _ _
    unfold Len at *
    simp only [List.length_append, List.length_drop, hl]
    omega

/-! ## Patching at a position, writing a given count, growing -/

/-- What `ChangeAuto` does at a position `pos ≥ 0` when the patch fits. -/
theorem ChangeAuto_ok (b : BufferStream) (pos : Int) (buf : List Byte) (hp : 0 ≤ pos)
    (hfit : pos + (buf.length : Int) ≤ b.Len) :
    b.ChangeAuto pos buf =
      some { b with vBuffer :=
        b.vBuffer.take pos.toNat ++ buf ++ b.vBuffer.drop (pos.toNat + buf.length) } := by
  unfold ChangeAuto
  simp only
  rw [if_neg (by omega)]
  have e : pos = ((pos.toNat : Nat) : Int) := by omega
  have := changeLoop_eq buf b.vBuffer pos.toNat (by unfold Len at hfit; omega)
  rw [← e] at this
  rw [this]

theorem storeForWrite_length (b : BufferStream) (endPos : Int) :
    ((storeForWrite b endPos).length : Int)
      = if endPos > b.Len then endPos + defaultSize else b.Len := by
  unfold storeForWrite
  split_ifs with h
  · rw [Resize_ok b _ (by omega)]
    simp only [List.length_append, List.length_replicate]
    unfold Len defaultSize at *
    omega
  · rfl

/-- What `Write` does for a count `wlen ≥ 0` on a buffer with `writeIndex ≥ 0`. -/
theorem Write_eq (b : BufferStream) (buf : List Byte) (wlen : Int) (h0 : 0 ≤ b.writeIndex)
    (hn : 0 ≤ wlen) :
    b.Write buf wlen =
      some ({ vBuffer :=
                (storeForWrite b (b.writeIndex + wlen)).take b.writeIndex.toNat ++
                goCopy (((storeForWrite b (b.writeIndex + wlen)).drop b.writeIndex.toNat).take
                  wlen.toNat) buf ++
                (storeForWrite b (b.writeIndex + wlen)).drop (b.writeIndex + wlen).toNat
              readIndex := b.readIndex
              writeIndex := b.writeIndex + wlen }, wlen) := by
  have hlen := storeForWrite_length b (b.writeIndex + wlen)
  unfold Write
  by_cases hg : b.writeIndex + wlen > b.Len
  · rw [if_pos hg] at hlen
    have hs : storeForWrite b (b.writeIndex + wlen)
        = (b.Resize (b.writeIndex + wlen + defaultSize)).1.vBuffer := by
      unfold storeForWrite; rw [if_pos hg]
    rw [hs] at hlen ⊢
    simp only [hg, if_true]
    have hr := Resize_ok b (b.writeIndex + wlen + defaultSize) (by omega)
    rw [hr] at hlen ⊢
    simp only at hlen ⊢
    unfold goCopyAt
    rw [goSlice_ok _ _ _ h0 (by omega) (by rw [hlen]; unfold defaultSize; omega)]
    have e : (b.writeIndex + wlen - b.writeIndex).toNat = wlen.toNat := by omega
    simp only [e]
  · rw [if_neg hg] at hlen
    have hs : storeForWrite b (b.writeIndex + wlen) = b.vBuffer := by
      unfold storeForWrite; rw [if_neg hg]
    rw [hs]
    simp only [hg, if_false]
    unfold goCopyAt
    rw [goSlice_ok _ _ _ h0 (by omega) (by unfold Len at hg; omega)]
    have e : (b.writeIndex + wlen - b.writeIndex).toNat = wlen.toNat := by omega
    simp only [e]

/-- The capacity after `Write`. -/
theorem Write_length (b : BufferStream) (buf : List Byte) (wlen : Int)
    (h0 : 0 ≤ b.writeIndex) (hn : 0 ≤ wlen) :
    (((storeForWrite b (b.writeIndex + wlen)).take b.writeIndex.toNat ++
      goCopy (((storeForWrite b (b.writeIndex + wlen)).drop b.writeIndex.toNat).take
        wlen.toNat) buf ++
      (storeForWrite b (b.writeIndex + wlen)).drop (b.writeIndex + wlen).toNat).length : Int)
      = if b.writeIndex + wlen > b.Len then b.writeIndex + wlen + defaultSize else b.Len := by
  have hlen := storeForWrite_length b (b.writeIndex + wlen)
  rw [← hlen]
  have hle : b.writeIndex + wlen ≤ ((storeForWrite b (b.writeIndex + wlen)).length : Int) := by
    rw [hlen]
    split_ifs with h
    · unfold defaultSize; omega
    · omega
  simp only [List.length_append, List.length_take, List.length_drop, goCopy_length]
  omega

/-! ## A successful `Unpack` -/

/-- The buffer `BuildPacker` returns holds the body at `[4, 4+len(body))`,
whatever the length of the body. -/
theorem BuildPacker_body (body : List Byte) (out : BufferStream)
    (h : BuildPacker body = some out) :
    out.readIndex = 0 ∧ out.writeIndex = 4 + (body.length : Int) ∧
      seg out 4 (4 + (body.length : Int)) = body := by
  obtain ⟨out', hout, hr, hw, -, ht⟩ := BuildPacker_spec body
  rw [h] at hout
  have := Option.some.inj hout
  subst this
  refine ⟨hr, hw, ?_⟩
  have hlen : (I32TBytes (toInt32 (body.length : Int))).length = 4 := beEncode_length _ _
  have := seg_of_take out _ (I32TBytes (toInt32 (body.length : Int))) body []
    (by simpa using ht)
  rw [hlen] at this
  exact this

/-- A successful `Unpack` is the one `Unpack_ready` describes. -/
theorem Unpack_success (b : BufferStream) (shift : Bool) (b' out : BufferStream)
    (hi : Inv b) (h : b.Unpack shift = some (b', some out, none)) :
    4 ≤ b.Available ∧ prefixLen b + 4 ≤ b.Available ∧
      BuildPacker (seg b (b.readIndex + 4) (b.readIndex + 4 + prefixLen b)) = some out ∧
      b' = (if shift then
              { vBuffer := b.vBuffer.drop (4 + prefixLen b).toNat ++
                  b.vBuffer.drop (b.vBuffer.length - (4 + prefixLen b).toNat)
                readIndex := b.readIndex
                writeIndex := b.writeIndex - (4 + prefixLen b) }
            else { b with readIndex := b.readIndex + 4 + prefixLen b }) := by
  by_cases hc : b.Available < 4 ∨ b.Available < prefixLen b + 4
  · rw [Unpack_notReady b shift hi hc] at h
    exact absurd (Prod.mk.inj (Prod.mk.inj (Option.some.inj h)).2).1 (by simp)
  · obtain ⟨o, ho, hun⟩ := Unpack_ready b shift hi (by omega) (by omega)
    rw [hun] at h
    have h1 := Prod.mk.inj (Option.some.inj h)
    have h2 := Option.some.inj (Prod.mk.inj h1.2).1
    subst h2
    exact ⟨by omega, by omega, ho, h1.1.symm⟩

/-- The store `Write` copies into starts with the old store. -/
theorem storeForWrite_prefix (b : BufferStream) (endPos : Int) (m : Nat)
    (hm : m ≤ b.vBuffer.length) :
    (storeForWrite b endPos).take m = b.vBuffer.take m := by
  unfold storeForWrite
  split_ifs with h
  · rw [Resize_ok b _ (by omega)]
    simp only
    rw [List.take_append_of_le_length hm]
  · rfl

/-! ## The machine layer -/

theorem wrapInt64_of_isInt64 (x : Int) (h : isInt64 x) : wrapInt64 x = x := by
  unfold isInt64 at h
  unfold wrapInt64
  omega

theorem wrapInt64_isInt64 (x : Int) : isInt64 (wrapInt64 x) := by
  unfold isInt64 wrapInt64
  omega

/-- Where the exact sum is an `int64`, the two layers of `Skip` agree. -/
theorem machine_Skip_agrees (b : BufferStream) (n : Int) (h : isInt64 (b.readIndex + n)) :
    Machine.Skip b n = b.Skip n := by
  unfold Machine.Skip Skip
  rw [wrapInt64_of_isInt64 _ h]

/-- What `Shift` does on machine integers for `0 ≤ n ≤ writeIndex ≤ capacity`. -/
theorem machine_Shift_ok (b : BufferStream) (n : Int) (h0 : 0 ≤ n) (h1 : n ≤ b.writeIndex)
    (h2 : b.writeIndex ≤ b.Len) :
    Machine.Shift b n =
      some ({ vBuffer := b.vBuffer.drop n.toNat ++ b.vBuffer.drop (b.vBuffer.length - n.toNat)
              readIndex := wrapInt64 (b.readIndex - n)
              writeIndex := wrapInt64 (b.writeIndex - n) }, none) := by
  have h := Shift_ok b n h0 h1 h2
  unfold Shift at h
  unfold Machine.Shift
  rw [if_neg (by omega)] at h ⊢
  cases hs : goSlice b.vBuffer n b.Len with
  | none => rw [hs] at h; exact absurd h (by simp)
  | some rest =>
    rw [hs] at h
    simp only at h ⊢
    have hv := congrArg BufferStream.vBuffer (Prod.mk.inj (Option.some.inj h)).1
    simp only at hv
    rw [hv]

/-- Where both exact differences are `int64`, the two layers of `Shift` agree. -/
theorem machine_Shift_agrees (b : BufferStream) (n : Int) (hr : isInt64 (b.readIndex - n))
    (hw : isInt64 (b.writeIndex - n)) :
    Machine.Shift b n = b.Shift n := by
  unfold Machine.Shift Shift
  rw [wrapInt64_of_isInt64 _ hr, wrapInt64_of_isInt64 _ hw]

/-- On a store Go can hold, `Resize` on machine integers refuses a size below
`capacity + 2048`. -/
theorem machine_Resize_refuses (mem : Int) (b : BufferStream) (newSize : Int)
    (hlen : b.Len ≤ maxAlloc) (h : newSize < b.Len + 2048) :
    Machine.Resize mem b newSize = some (b, some "NewSize is too short...") := by
  have hl0 : 0 ≤ b.Len := by unfold Len; omega
  have hw : wrapInt64 (b.Len + defaultSize) = b.Len + 2048 := by
    apply wrapInt64_of_isInt64
    unfold isInt64 defaultSize
    unfold maxAlloc at hlen
    omega
  unfold Machine.Resize
  rw [hw, if_pos h]

/-- On a store Go can hold, `Resize` on machine integers does not return above
the allocator's limit or the memory of the environment. -/
theorem machine_Resize_panics (mem : Int) (b : BufferStream) (newSize : Int)
    (hlen : b.Len ≤ maxAlloc) (h : b.Len + 2048 ≤ newSize)
    (hbig : maxAlloc < newSize ∨ mem < newSize) :
    Machine.Resize mem b newSize = none := by
  have hl0 : 0 ≤ b.Len := by unfold Len; omega
  have hw : wrapInt64 (b.Len + defaultSize) = b.Len + 2048 := by
    apply wrapInt64_of_isInt64
    unfold isInt64 defaultSize
    unfold maxAlloc at hlen
    omega
  unfold Machine.Resize
  rw [hw, if_neg (by omega)]
  unfold goMake
  rw [if_neg (by omega)]

/-- On a store Go can hold, where `make` returns, the two layers of `Resize`
agree. -/
theorem machine_Resize_agrees (mem : Int) (b : BufferStream) (newSize : Int)
    (hlen : b.Len ≤ maxAlloc)
    (h : newSize < b.Len + 2048 ∨ (newSize ≤ maxAlloc ∧ newSize ≤ mem)) :
    Machine.Resize mem b newSize = some (b.Resize newSize) := by
  by_cases hs : newSize < b.Len + 2048
  · rw [machine_Resize_refuses mem b newSize hlen hs]
    have hs' : newSize < b.Len + defaultSize := hs
    unfold Resize
    rw [if_pos hs']
  · have hle : newSize ≤ maxAlloc ∧ newSize ≤ mem := by
      rcases h with h | h
      · exact absurd h hs
      · exact h
    have hl0 : 0 ≤ b.Len := by unfold Len; omega
    have hw : wrapInt64 (b.Len + defaultSize) = b.Len + 2048 := by
      apply wrapInt64_of_isInt64
      unfold isInt64 defaultSize
      unfold maxAlloc at hlen
      omega
    have hs' : ¬ newSize < b.Len + defaultSize := hs
    unfold Machine.Resize Resize
    rw [hw, if_neg hs, if_neg hs']
    unfold goMake
    rw [if_pos ⟨by omega, hle.1, hle.2⟩]
    simp only
    unfold goCopyAt
    rw [goSlice_ok _ _ _ (le_refl _) hl0 (by rw [List.length_replicate]; omega)]
    simp

/-- Where nothing leaves the range of `int64` and `make` returns, the two
layers of `Write` agree. -/
theorem machine_Write_agrees (mem : Int) (b : BufferStream) (buf : List Byte) (wlen : Int)
    (h0 : 0 ≤ b.writeIndex) (hn : 0 ≤ wlen) (hlen : b.Len ≤ maxAlloc)
    (hfit : b.writeIndex + wlen ≤ b.Len ∨
      (b.writeIndex + wlen + 2048 ≤ maxAlloc ∧ b.writeIndex + wlen + 2048 ≤ mem)) :
    Machine.Write mem b buf wlen = b.Write buf wlen := by
  have hmax : maxAlloc = 281474976710656 := rfl
  have he : wrapInt64 (b.writeIndex + wlen) = b.writeIndex + wlen := by
    apply wrapInt64_of_isInt64
    unfold isInt64
    omega
  unfold Machine.Write Write
  simp only [he]
  by_cases hg : b.writeIndex + wlen > b.Len
  · have hfit' : b.writeIndex + wlen + 2048 ≤ maxAlloc ∧
        b.writeIndex + wlen + 2048 ≤ mem := by
      rcases hfit with h | h
      · exact absurd hg (by omega)
      · exact h
    have he2 : wrapInt64 (b.writeIndex + wlen + defaultSize)
        = b.writeIndex + wlen + defaultSize := by
      apply wrapInt64_of_isInt64
      unfold isInt64 defaultSize
      omega
    simp only [hg, if_true, he2]
    rw [machine_Resize_agrees mem b _ hlen
      (Or.inr ⟨by unfold defaultSize; omega, by unfold defaultSize; omega⟩)]
    rw [Resize_ok b _ (by omega)]
    simp only [he]
  · simp only [hg, if_false, he]

/-! ## Facts shared by the two layers -/

/-- The store a successful `Shift(n)` leaves: same capacity, and the bytes
below the new writeIndex are the old bytes from `n` on. -/
theorem shifted_store (b : BufferStream) (n r' w' : Int) (hwl : b.writeIndex ≤ b.Len)
    (h0 : 0 ≤ n) (h1 : n ≤ b.writeIndex) :
    BufferStream.Len
        { vBuffer := b.vBuffer.drop n.toNat ++ b.vBuffer.drop (b.vBuffer.length - n.toNat)
          readIndex := r'
          writeIndex := w' } = b.Len ∧
      seg { vBuffer := b.vBuffer.drop n.toNat ++ b.vBuffer.drop (b.vBuffer.length - n.toNat)
            readIndex := r'
            writeIndex := w' } 0 (b.writeIndex - n) = seg b n b.writeIndex := by
  constructor
  · unfold Len at *
    simp only [List.length_append, List.length_drop]
    omega
  · unfold seg
    unfold Len at hwl
    have e1 : (b.writeIndex - n - 0).toNat = b.writeIndex.toNat - n.toNat := by omega
    have e2 : (b.writeIndex - n).toNat = b.writeIndex.toNat - n.toNat := by omega
    have e3 : (0 : Int).toNat = 0 := rfl
    rw [e1, e2, e3, List.drop_zero]
    simp only
    rw [take_shifted _ _ _ (by omega) (by omega), List.drop_take]

/-- What `Write` does for a count `wlen ≥ 0` on a buffer with `writeIndex ≥ 0`,
on exact integers. -/
theorem Write_facts (b : BufferStream) (buf : List Byte) (wlen : Int)
    (h0 : 0 ≤ b.writeIndex) (hn : 0 ≤ wlen) :
    ∃ b', b.Write buf wlen = some (b', wlen) ∧
      b'.writeIndex = b.writeIndex + wlen ∧ b'.readIndex = b.readIndex ∧
      b'.vBuffer.take (min b.writeIndex.toNat b.vBuffer.length)
        = b.vBuffer.take b.writeIndex.toNat ∧
      seg b' b.writeIndex (b.writeIndex + min wlen (buf.length : Int))
        = buf.take (min wlen.toNat buf.length) := by
  have hlen := storeForWrite_length b (b.writeIndex + wlen)
  have hle : b.writeIndex + wlen ≤ ((storeForWrite b (b.writeIndex + wlen)).length : Int) := by
    rw [hlen]
    split_ifs with h
    · unfold defaultSize; omega
    · omega
  have hpre : ((storeForWrite b (b.writeIndex + wlen)).take b.writeIndex.toNat).length
      = b.writeIndex.toNat := by
    rw [List.length_take]; omega
  have hdst : (((storeForWrite b (b.writeIndex + wlen)).drop b.writeIndex.toNat).take
      wlen.toNat).length = wlen.toNat := by
    rw [List.length_take, List.length_drop]; omega
  refine ⟨_, Write_eq b buf wlen h0 hn, rfl, rfl, ?_, ?_⟩
  · simp only
    rw [List.append_assoc, List.take_append_of_le_length (by rw [hpre]; omega),
      List.take_take]
    have e : min (min b.writeIndex.toNat b.vBuffer.length) b.writeIndex.toNat
        = min b.writeIndex.toNat b.vBuffer.length := by omega
    rw [e, storeForWrite_prefix b _ _ (by omega)]
    by_cases hw : b.writeIndex.toNat ≤ b.vBuffer.length
    · rw [Nat.min_eq_left hw]
    · rw [Nat.min_eq_right (by omega), List.take_of_length_le (le_refl _),
        List.take_of_length_le (by omega)]
  · unfold seg
    simp only
    rw [List.append_assoc, List.drop_left' hpre]
    unfold goCopy
    rw [hdst, List.append_assoc]
    have e : (b.writeIndex + min wlen (buf.length : Int) - b.writeIndex).toNat
        = min wlen.toNat buf.length := by omega
    rw [e]
    have hk : (buf.take wlen.toNat).length = min wlen.toNat buf.length := by
      rw [List.length_take]
    rw [List.take_left' hk]
    by_cases hc : wlen.toNat ≤ buf.length
    · rw [Nat.min_eq_left hc]
    · rw [Nat.min_eq_right (by omega), List.take_of_length_le (by omega),
        List.take_of_length_le (le_refl _)]

/-- Under the cursor invariant, on a store Go can hold, the two layers of `Skip`
agree for every `int` argument. -/
theorem machine_Skip_agrees_of_Inv (b : BufferStream) (n : Int) (hi : Inv b)
    (hlen : b.Len ≤ maxAlloc) (hn : isInt64 n) :
    Machine.Skip b n = b.Skip n := by
  obtain ⟨h0, h1, h2⟩ := hi
  by_cases h : n > b.writeIndex
  · unfold Machine.Skip Skip
    rw [if_pos h, if_pos h]
  · apply machine_Skip_agrees
    unfold isInt64 maxAlloc at *
    omega

/-- Under the cursor invariant, on a store Go can hold, the two layers of
`Shift` agree for every `int` argument. -/
theorem machine_Shift_agrees_of_Inv (b : BufferStream) (n : Int) (hi : Inv b)
    (hlen : b.Len ≤ maxAlloc) :
    Machine.Shift b n = b.Shift n := by
  obtain ⟨h0, h1, h2⟩ := hi
  by_cases h : n > b.writeIndex
  · unfold Machine.Shift Shift
    rw [if_pos h, if_pos h]
  · by_cases hneg : n < 0
    · unfold Machine.Shift Shift goSlice
      rw [if_neg h, if_neg h, if_neg (by omega)]
    · apply machine_Shift_agrees
      · unfold isInt64 maxAlloc at *
        omega
      · unfold isInt64 maxAlloc at *
        omega

/-! ## The claims -/

/-- C1. Framing round trip: for every body shorter than 2^31 bytes and either
value of the shift flag, `Unpack` on `BuildPacker(body)` returns no error and a
buffer whose writeIndex is `4 + len(body)`, whose storage bytes `[0,4)` are the
big-endian encoding of `len(body)` and whose storage bytes `[4, 4+len(body))`
equal `body`; afterwards `Available()` of the source buffer is 0. -/
theorem C1_framing_round_trip (body : List Byte) (shift : Bool)
    (h : body.length < 2 ^ 31) :
    ∃ src src' out, BuildPacker body = some src ∧
      src.Unpack shift = some (src', some out, none) ∧
      out.writeIndex = 4 + (body.length : Int) ∧
      seg out 0 4 = U32TBytes body.length ∧
      seg out 4 (4 + (body.length : Int)) = body ∧
      src'.Available = 0 := by
  obtain ⟨src, hsrc, hr, hw, hl, ht⟩ := BuildPacker_spec body
  rw [I32TBytes_len _ h] at ht
  have hlen : (U32TBytes body.length).length = 4 := beEncode_length _ _
  have hinv : Inv src := ⟨by omega, by omega, hl⟩
  have hp : prefixLen src = (body.length : Int) :=
    prefixLen_of_take src _ body.length body hr (by norm_num at h ⊢; omega) ht
  have hbody : seg src 4 (4 + (body.length : Int)) = body := by
    have := seg_of_take src _ (U32TBytes body.length) body [] (by simpa using ht)
    rw [hlen] at this
    exact this
  have hhdr : seg src 0 4 = U32TBytes body.length := by
    have := seg_of_take src _ [] (U32TBytes body.length) body (by simpa using ht)
    rw [hlen] at this
    exact this
  obtain ⟨out, hout, hun⟩ := Unpack_ready src shift hinv
    (by unfold Available; omega) (by unfold Available; omega)
  rw [hr, hp] at hout
  have e0 : (0 : Int) + 4 = 4 := rfl
  rw [e0, hbody, hsrc] at hout
  have hso : src = out := Option.some.inj hout
  subst hso
  refine ⟨src, _, src, hsrc, hun, hw, hhdr, hbody, ?_⟩
  cases shift
  · simp only [Bool.false_eq_true, if_false, Available]
    omega
  · simp only [if_true, Available]
    omega

theorem C1_framing_round_trip_witness :
    ([1, 2, 3] : List Byte).length < 2 ^ 31 ∧
    ∃ src src' out, BuildPacker [1, 2, 3] = some src ∧
      src.Unpack true = some (src', some out, none) ∧
      out.writeIndex = 4 + (([1, 2, 3] : List Byte).length : Int) ∧
      seg out 0 4 = U32TBytes ([1, 2, 3] : List Byte).length ∧
      seg out 4 (4 + (([1, 2, 3] : List Byte).length : Int)) = [1, 2, 3] ∧
      src'.Available = 0 :=
  ⟨by decide, C1_framing_round_trip [1, 2, 3] true (by decide)⟩


/-- C2. Stream walking: when the frames `[4-byte big-endian len(bi)][bi]` of
bodies `b1..bn`, each shorter than 2^31 bytes, are appended in order with
`WriteAuto` to a buffer made by `NewPacker` (in any division of the byte stream
into `WriteAuto` calls, one call for each frame included), then `n` successive
calls of `Unpack(true)` all succeed, the i-th returns a buffer whose bytes
`[4, 4+len(bi))` equal `bi`, and the next call returns the not-ready error and
a nil buffer, with `Available() = 0` and `readIndex = writeIndex = 0`. -/
theorem C2_stream_walking (bodies : List (List Byte)) (chunks : List (List Byte))
    (hlen : ∀ x ∈ bodies, x.length < 2 ^ 31)
    (hch : chunks.flatten = (bodies.map frame).flatten) :
    ∃ b0 rets b1 outs, writeAll NewPacker chunks = some (b0, rets) ∧
      unpackMany b0 bodies.length = some (b1, outs) ∧
      List.Forall₂ (fun out body => seg out 4 (4 + (body.length : Int)) = body) outs bodies ∧
      b1.Unpack true = some (b1, none, notReady) ∧
      b1.Available = 0 ∧ b1.readIndex = 0 ∧ b1.writeIndex = 0 := by
  obtain ⟨b0, rets, e0, -, r0, w0, l0, t0⟩ :=
    writeAll_spec chunks NewPacker (le_refl _) (by decide)
  have z : NewPacker.writeIndex.toNat = 0 := rfl
  rw [z, List.take_zero, List.nil_append, hch] at t0
  have hw0 : 0 ≤ b0.writeIndex := by
    rw [w0]
    have : NewPacker.writeIndex = 0 := rfl
    omega
  obtain ⟨b1, outs, e1, f1, r1, w1, l1⟩ :=
    unpackMany_walk bodies b0 hlen (by rw [r0]; rfl) hw0 l0 t0
  refine ⟨b0, rets, b1, outs, e0, e1, f1, ?_, ?_, r1, w1⟩
  · exact Unpack_notReady b1 true ⟨by omega, by omega, l1⟩
      (Or.inl (by unfold Available; omega))
  · unfold Available; omega

theorem C2_stream_walking_witness :
    (∀ x ∈ ([[1, 2], [], [3]] : List (List Byte)), x.length < 2 ^ 31) ∧
    ∃ b0 rets b1 outs,
      writeAll NewPacker (([[1, 2], [], [3]] : List (List Byte)).map frame) = some (b0, rets) ∧
      unpackMany b0 ([[1, 2], [], [3]] : List (List Byte)).length = some (b1, outs) ∧
      List.Forall₂ (fun out body => seg out 4 (4 + (body.length : Int)) = body) outs
        [[1, 2], [], [3]] ∧
      b1.Unpack true = some (b1, none, notReady) ∧
      b1.Available = 0 ∧ b1.readIndex = 0 ∧ b1.writeIndex = 0 :=
  ⟨by decide, C2_stream_walking [[1, 2], [], [3]] _ (by decide) rfl⟩

/-- C3. Partial-frame safety: for a body of length `L < 2^31` and every
`k < 4 + L`, a buffer made by `NewPacker` into which the first `k` bytes of the
frame `[big-endian L][body]` have been written one byte at a time returns the
not-ready error and a nil buffer from `Unpack(false)` and is left unchanged by
that call; once all `4 + L` bytes have been written, `Unpack(false)` succeeds
and returns a buffer carrying the header and `body`. -/
theorem C3_partial_frame_safety (body : List Byte) (hlen : body.length < 2 ^ 31) :
    (∀ k : Nat, k < 4 + body.length →
      ∃ b rets, writeAll NewPacker (((frame body).take k).map (fun x => [x])) = some (b, rets) ∧
        b.Unpack false = some (b, none, notReady)) ∧
    (∃ b rets b' out, writeAll NewPacker ((frame body).map (fun x => [x])) = some (b, rets) ∧
        b.Unpack false = some (b', some out, none) ∧
        out.writeIndex = 4 + (body.length : Int) ∧
        seg out 0 4 = U32TBytes body.length ∧
        seg out 4 (4 + (body.length : Int)) = body) := by
  have z : NewPacker.writeIndex.toNat = 0 := rfl
  have zw : NewPacker.writeIndex = 0 := rfl
  have zr : NewPacker.readIndex = 0 := rfl
  constructor
  · intro k hk
    obtain ⟨b, rets, e, -, r, w, l, t⟩ :=
      writeAll_spec (((frame body).take k).map (fun x => [x])) NewPacker (le_refl _) (by decide)
    rw [flatten_map_singleton] at w t
    rw [z, List.take_zero, List.nil_append] at t
    rw [zw, List.length_take, frame_length, Nat.min_eq_left (by omega)] at w
    rw [zr] at r
    refine ⟨b, rets, e, ?_⟩
    have hinv : Inv b := ⟨by omega, by omega, l⟩
    apply Unpack_notReady b false hinv
    by_cases h4 : k < 4
    · left; unfold Available; omega
    · right
      have hp : prefixLen b = (body.length : Int) := by
        apply prefixLen_of_take b _ body.length (body.take (k - 4)) r
          (by norm_num at hlen ⊢; omega)
        rw [t]
        unfold frame
        have h4' : (U32TBytes body.length).length = 4 := beEncode_length _ _
        rw [List.take_append_eq_append_take, h4', List.take_of_length_le (by omega)]
      rw [hp]
      unfold Available
      omega
  · obtain ⟨b, rets, e, -, r, w, l, t⟩ :=
      writeAll_spec ((frame body).map (fun x => [x])) NewPacker (le_refl _) (by decide)
    rw [flatten_map_singleton] at w t
    rw [z, List.take_zero, List.nil_append] at t
    rw [zw] at w
    rw [zr] at r
    obtain ⟨out, -, hh, hb, hw, hun, -⟩ :=
      Unpack_front b false body [] hlen r (by omega) l (by rw [t, List.append_nil])
    exact ⟨b, rets, _, out, e, hun, hw, hh, hb⟩

theorem C3_partial_frame_safety_witness :
    ([7, 8] : List Byte).length < 2 ^ 31 ∧
    (∀ k : Nat, k < 4 + ([7, 8] : List Byte).length →
      ∃ b rets, writeAll NewPacker (((frame [7, 8]).take k).map (fun x => [x])) = some (b, rets) ∧
        b.Unpack false = some (b, none, notReady)) ∧
    (∃ b rets b' out, writeAll NewPacker ((frame [7, 8]).map (fun x => [x])) = some (b, rets) ∧
        b.Unpack false = some (b', some out, none) ∧
        out.writeIndex = 4 + (([7, 8] : List Byte).length : Int) ∧
        seg out 0 4 = U32TBytes ([7, 8] : List Byte).length ∧
        seg out 4 (4 + (([7, 8] : List Byte).length : Int)) = [7, 8]) :=
  ⟨by decide, C3_partial_frame_safety [7, 8] (by decide)⟩

/-- C4. `Unpack` fails exactly when the frame is incomplete, and failing changes
nothing: on a buffer with `0 ≤ readIndex ≤ writeIndex ≤ capacity`, for either
flag value, `Unpack` returns (it does not panic); it returns the not-ready
error with a nil buffer if and only if `Available() < 4` or
`Available() < L + 4`, where `L` is the big-endian uint32 stored at
`storage[readIndex, readIndex+4)`; whenever it returns that error the buffer is
exactly as before the call, and otherwise it returns no error and a buffer.
`Unpack` on a buffer fresh from `NewPacker` returns the not-ready error. -/
theorem C4_unpack_not_ready (b : BufferStream) (shift : Bool) (hi : Inv b) :
    (∃ b' out err, b.Unpack shift = some (b', out, err) ∧
      ((err = notReady ∧ out = none) ↔
        (b.Available < 4 ∨ b.Available < prefixLen b + 4)) ∧
      (err = notReady → b' = b ∧ out = none) ∧
      (err ≠ notReady → err = none ∧ out.isSome = true)) ∧
    NewPacker.Unpack shift = some (NewPacker, none, notReady) := by
  constructor
  · by_cases h : b.Available < 4 ∨ b.Available < prefixLen b + 4
    · refine ⟨b, none, notReady, Unpack_notReady b shift hi h, ?_, ?_, ?_⟩
      · exact ⟨fun _ => h, fun _ => ⟨rfl, rfl⟩⟩
      · exact fun _ => ⟨rfl, rfl⟩
      · exact fun hne => absurd rfl hne
    · obtain ⟨out, -, hun⟩ := Unpack_ready b shift hi (by omega) (by omega)
      refine ⟨_, some out, none, hun, ?_, ?_, ?_⟩
      · constructor
        · rintro ⟨he, -⟩
          exact absurd he (by simp [notReady])
        · intro h'
          exact absurd h' h
      · intro he
        exact absurd he (by simp [notReady])
      · exact fun _ => ⟨rfl, rfl⟩
  · exact Unpack_notReady NewPacker shift (by decide) (Or.inl (by decide))

theorem C4_unpack_not_ready_witness :
    Inv { vBuffer := [0, 0, 0, 2, 5], readIndex := 0, writeIndex := 5 } ∧
    (∃ b' out err,
      BufferStream.Unpack { vBuffer := [0, 0, 0, 2, 5], readIndex := 0, writeIndex := 5 } false
        = some (b', out, err) ∧
      ((err = notReady ∧ out = none) ↔
        (BufferStream.Available { vBuffer := [0, 0, 0, 2, 5], readIndex := 0, writeIndex := 5 } < 4 ∨
         BufferStream.Available { vBuffer := [0, 0, 0, 2, 5], readIndex := 0, writeIndex := 5 }
           < prefixLen { vBuffer := [0, 0, 0, 2, 5], readIndex := 0, writeIndex := 5 } + 4)) ∧
      (err = notReady →
        b' = { vBuffer := [0, 0, 0, 2, 5], readIndex := 0, writeIndex := 5 } ∧ out = none) ∧
      (err ≠ notReady → err = none ∧ out.isSome = true)) ∧
    NewPacker.Unpack false = some (NewPacker, none, notReady) :=
  ⟨by decide, C4_unpack_not_ready _ false (by decide)⟩

/-- C5. The pack example on the code: starting from `NewPacker()`, after
`WriteInt32(1000)` and then `WriteString("hello")`, `Packer()` returns no error
and the 9 bytes `[0,0,0,9, 'h','e','l','l','o']`, not the 13 bytes
`[0,0,0,9, 0,0,3,0xE8, 'h','e','l','l','o']` of the claim: `NewPacker` leaves
writeIndex at 0 although its comment reserves 4 bytes for the length, so the
header `Packer` patches over `storage[0,4)` destroys the int32 written
there. -/
theorem C5_pack_example :
    packExample = some ([0, 0, 0, 9, 104, 101, 108, 108, 111], none) ∧
    packExample ≠ some ([0, 0, 0, 9, 0, 0, 3, 0xE8, 104, 101, 108, 108, 111], none) := by
  rw [packExample_eq]
  exact ⟨rfl, by decide⟩

/-- C6. Packer contract: on a buffer with `writeIndex ≤ capacity`, `Packer`
returns an error if and only if `writeIndex < 4`, and then leaves the buffer
unchanged; when `4 ≤ writeIndex < 2^32` it returns no error and exactly
`writeIndex` bytes, whose first 4 bytes are the big-endian encoding of
`writeIndex` and whose bytes `[4, writeIndex)` equal the storage bytes
`[4, writeIndex)` from before the call, and it changes neither cursor, nor the
capacity, nor any storage byte outside `[0,4)`. -/
theorem C6_packer_contract (b : BufferStream) (hwl : b.writeIndex ≤ b.Len) :
    ∃ b' out err, b.Packer = some (b', out, err) ∧
      (err ≠ none ↔ b.writeIndex < 4) ∧
      (b.writeIndex < 4 → b' = b) ∧
      (4 ≤ b.writeIndex → b.writeIndex < 2 ^ 32 →
        (out.length : Int) = b.writeIndex ∧
        out.take 4 = U32TBytes b.writeIndex.toNat ∧
        out.drop 4 = seg b 4 b.writeIndex ∧
        b'.readIndex = b.readIndex ∧ b'.writeIndex = b.writeIndex ∧
        b'.vBuffer.length = b.vBuffer.length ∧
        b'.vBuffer.drop 4 = b.vBuffer.drop 4) := by
  by_cases h4 : b.writeIndex < 4
  · refine ⟨b, b.Bytes, some "No Data Need Package...", ?_, ?_, fun _ => rfl, ?_⟩
    · unfold Packer; rw [if_pos h4]
    · exact ⟨fun _ => h4, fun _ => by simp⟩
    · intro h; omega
  · have hl : ∀ n, (U32TBytes n).length = 4 := fun n => beEncode_length _ _
    have hlen : 4 ≤ b.vBuffer.length := by unfold Len at hwl; omega
    refine ⟨_, _, none, Packer_ok b (by omega) hwl, ?_, ?_, ?_⟩
    · exact ⟨fun h => absurd rfl h, fun h => absurd h h4⟩
    · intro h; omega
    · intro _ h32
      rw [toUint32_small _ (by omega) h32]
      unfold Len at hwl
      refine ⟨?_, ?_, ?_, rfl, rfl, ?_, ?_⟩
      · rw [List.length_take, List.length_append, hl, List.length_drop]; omega
      · rw [List.take_take, Nat.min_eq_left (by omega), List.take_left' (hl _)]
      · rw [List.drop_take, List.drop_left' (hl _)]
        unfold seg
        have e1 : (4 : Int).toNat = 4 := rfl
        have e2 : (b.writeIndex - 4).toNat = b.writeIndex.toNat - 4 := by omega
        rw [e1, e2]
      · simp only [List.length_append, hl, List.length_drop]; omega
      · simp only
        rw [List.drop_left' (hl _)]

theorem C6_packer_contract_witness :
    BufferStream.writeIndex { vBuffer := [9, 9, 9, 9, 1, 2], readIndex := 0, writeIndex := 5 }
      ≤ BufferStream.Len { vBuffer := [9, 9, 9, 9, 1, 2], readIndex := 0, writeIndex := 5 } ∧
    ∃ b' out err,
      BufferStream.Packer { vBuffer := [9, 9, 9, 9, 1, 2], readIndex := 0, writeIndex := 5 }
        = some (b', out, err) ∧
      (err ≠ none ↔ (5 : Int) < 4) ∧
      ((5 : Int) < 4 → b' = { vBuffer := [9, 9, 9, 9, 1, 2], readIndex := 0, writeIndex := 5 }) ∧
      ((4 : Int) ≤ 5 → (5 : Int) < 2 ^ 32 →
        (out.length : Int) = 5 ∧
        out.take 4 = U32TBytes (5 : Int).toNat ∧
        out.drop 4 = seg { vBuffer := [9, 9, 9, 9, 1, 2], readIndex := 0, writeIndex := 5 } 4 5 ∧
        b'.readIndex = 0 ∧ b'.writeIndex = 5 ∧
        b'.vBuffer.length = ([9, 9, 9, 9, 1, 2] : List Byte).length ∧
        b'.vBuffer.drop 4 = ([9, 9, 9, 9, 1, 2] : List Byte).drop 4) :=
  ⟨by decide,
    C6_packer_contract { vBuffer := [9, 9, 9, 9, 1, 2], readIndex := 0, writeIndex := 5 }
      (by decide)⟩

/-- C7. Typed round trip: for each integer type `T` among uint8, int8, uint16,
int16, uint32, int32, uint64 and int64, every value `v` of `T` and every buffer
with `0 ≤ readIndex = writeIndex ≤ capacity`, `WriteT(v)` immediately followed
by `GetT()` returns exactly `v` and leaves readIndex equal to writeIndex, both
advanced by the width of `T`; the byte-order helpers are the fixed-width
big-endian encode and decode of that width. -/
theorem C7_typed_round_trip (b : BufferStream) (h0 : 0 ≤ b.readIndex)
    (hrw : b.readIndex = b.writeIndex) (hwl : b.writeIndex ≤ b.Len) :
    (∀ v : Nat, v < 2 ^ 8 →
      ∃ b1 b2, b.WriteUInt8 v = some b1 ∧ b1.GetUint8 = some (b2, v) ∧
        b2.readIndex = b.readIndex + 1 ∧ b2.writeIndex = b.writeIndex + 1) ∧
    (∀ v : Int, -2 ^ 7 ≤ v → v < 2 ^ 7 →
      ∃ b1 b2, b.WriteInt8 v = some b1 ∧ b1.GetInt8 = some (b2, v) ∧
        b2.readIndex = b.readIndex + 1 ∧ b2.writeIndex = b.writeIndex + 1) ∧
    (∀ v : Nat, v < 2 ^ 16 →
      ∃ b1 b2, b.WriteUInt16 v = some b1 ∧ b1.GetUint16 = some (b2, v) ∧
        b2.readIndex = b.readIndex + 2 ∧ b2.writeIndex = b.writeIndex + 2) ∧
    (∀ v : Int, -2 ^ 15 ≤ v → v < 2 ^ 15 →
      ∃ b1 b2, b.WriteInt16 v = some b1 ∧ b1.GetInt16 = some (b2, v) ∧
        b2.readIndex = b.readIndex + 2 ∧ b2.writeIndex = b.writeIndex + 2) ∧
    (∀ v : Nat, v < 2 ^ 32 →
      ∃ b1 b2, b.WriteUInt32 v = some b1 ∧ b1.GetUint32 = some (b2, v) ∧
        b2.readIndex = b.readIndex + 4 ∧ b2.writeIndex = b.writeIndex + 4) ∧
    (∀ v : Int, -2 ^ 31 ≤ v → v < 2 ^ 31 →
      ∃ b1 b2, b.WriteInt32 v = some b1 ∧ b1.GetInt32 = some (b2, v) ∧
        b2.readIndex = b.readIndex + 4 ∧ b2.writeIndex = b.writeIndex + 4) ∧
    (∀ v : Nat, v < 2 ^ 64 →
      ∃ b1 b2, b.WriteUInt64 v = some b1 ∧ b1.GetUint64 = some (b2, v) ∧
        b2.readIndex = b.readIndex + 8 ∧ b2.writeIndex = b.writeIndex + 8) ∧
    (∀ v : Int, -2 ^ 63 ≤ v → v < 2 ^ 63 →
      ∃ b1 b2, b.WriteInt64 v = some b1 ∧ b1.GetInt64 = some (b2, v) ∧
        b2.readIndex = b.readIndex + 8 ∧ b2.writeIndex = b.writeIndex + 8) := by
  refine ⟨?_, ?_, ?_, ?_, ?_, ?_, ?_, ?_⟩
  · intro v hv
    have hl : (U8TBytes v).length = 1 := beEncode_length _ _
    obtain ⟨b1, b2, e1, e2, r2, w2⟩ :=
      write_then_get b (U8TBytes v) (by rw [hl]; decide) h0 hrw hwl
    rw [hl] at e1 e2 r2 w2
    refine ⟨b1, b2, ?_, ?_, r2, w2⟩
    · unfold WriteUInt8; rw [e1]; rfl
    · unfold GetUint8
      have e2' : b1.GetBytes 1 = some (b2, U8TBytes v) := e2
      rw [e2']
      simp only [Option.map_some']
      unfold BTUint8 U8TBytes
      rw [unsigned_round_trip 1 v (by norm_num; omega)]
  · intro v hlo hhi
    have hl : (I8TBytes v).length = 1 := beEncode_length _ _
    obtain ⟨b1, b2, e1, e2, r2, w2⟩ :=
      write_then_get b (I8TBytes v) (by rw [hl]; decide) h0 hrw hwl
    rw [hl] at e1 e2 r2 w2
    refine ⟨b1, b2, ?_, ?_, r2, w2⟩
    · unfold WriteInt8; rw [e1]; rfl
    · unfold GetInt8
      have e2' : b1.GetBytes 1 = some (b2, I8TBytes v) := e2
      rw [e2']
      simp only [Option.map_some']
      unfold BTInt8 I8TBytes
      rw [signed_round_trip 1 v (by norm_num; omega) (by norm_num; omega)]
  · intro v hv
    have hl : (U16TBytes v).length = 2 := beEncode_length _ _
    obtain ⟨b1, b2, e1, e2, r2, w2⟩ :=
      write_then_get b (U16TBytes v) (by rw [hl]; decide) h0 hrw hwl
    rw [hl] at e1 e2 r2 w2
    refine ⟨b1, b2, ?_, ?_, r2, w2⟩
    · unfold WriteUInt16; rw [e1]; rfl
    · unfold GetUint16
      have e2' : b1.GetBytes 2 = some (b2, U16TBytes v) := e2
      rw [e2']
      simp only [Option.map_some']
      unfold BTUint16 U16TBytes
      rw [unsigned_round_trip 2 v (by norm_num; omega)]
  · intro v hlo hhi
    have hl : (I16TBytes v).length = 2 := beEncode_length _ _
    obtain ⟨b1, b2, e1, e2, r2, w2⟩ :=
      write_then_get b (I16TBytes v) (by rw [hl]; decide) h0 hrw hwl
    rw [hl] at e1 e2 r2 w2
    refine ⟨b1, b2, ?_, ?_, r2, w2⟩
    · unfold WriteInt16; rw [e1]; rfl
    · unfold GetInt16
      have e2' : b1.GetBytes 2 = some (b2, I16TBytes v) := e2
      rw [e2']
      simp only [Option.map_some']
      unfold BTInt16 I16TBytes
      rw [signed_round_trip 2 v (by norm_num; omega) (by norm_num; omega)]
  · intro v hv
    have hl : (U32TBytes v).length = 4 := beEncode_length _ _
    obtain ⟨b1, b2, e1, e2, r2, w2⟩ :=
      write_then_get b (U32TBytes v) (by rw [hl]; decide) h0 hrw hwl
    rw [hl] at e1 e2 r2 w2
    refine ⟨b1, b2, ?_, ?_, r2, w2⟩
    · unfold WriteUInt32; rw [e1]; rfl
    · unfold GetUint32
      have e2' : b1.GetBytes 4 = some (b2, U32TBytes v) := e2
      rw [e2']
      simp only [Option.map_some']
      unfold BTUint32 U32TBytes
      rw [unsigned_round_trip 4 v (by norm_num; omega)]
  · intro v hlo hhi
    have hl : (I32TBytes v).length = 4 := beEncode_length _ _
    obtain ⟨b1, b2, e1, e2, r2, w2⟩ :=
      write_then_get b (I32TBytes v) (by rw [hl]; decide) h0 hrw hwl
    rw [hl] at e1 e2 r2 w2
    refine ⟨b1, b2, ?_, ?_, r2, w2⟩
    · unfold WriteInt32; rw [e1]; rfl
    · unfold GetInt32
      have e2' : b1.GetBytes 4 = some (b2, I32TBytes v) := e2
      rw [e2']
      simp only [Option.map_some']
      unfold BTInt32 I32TBytes
      rw [signed_round_trip 4 v (by norm_num; omega) (by norm_num; omega)]
  · intro v hv
    have hl : (U64TBytes v).length = 8 := beEncode_length _ _
    obtain ⟨b1, b2, e1, e2, r2, w2⟩ :=
      write_then_get b (U64TBytes v) (by rw [hl]; decide) h0 hrw hwl
    rw [hl] at e1 e2 r2 w2
    refine ⟨b1, b2, ?_, ?_, r2, w2⟩
    · unfold WriteUInt64; rw [e1]; rfl
    · unfold GetUint64
      have e2' : b1.GetBytes 8 = some (b2, U64TBytes v) := e2
      rw [e2']
      simp only [Option.map_some']
      unfold BTUint64 U64TBytes
      rw [unsigned_round_trip 8 v (by norm_num; omega)]
  · intro v hlo hhi
    have hl : (I64TBytes v).length = 8 := beEncode_length _ _
    obtain ⟨b1, b2, e1, e2, r2, w2⟩ :=
      write_then_get b (I64TBytes v) (by rw [hl]; decide) h0 hrw hwl
    rw [hl] at e1 e2 r2 w2
    refine ⟨b1, b2, ?_, ?_, r2, w2⟩
    · unfold WriteInt64; rw [e1]; rfl
    · unfold GetInt64
      have e2' : b1.GetBytes 8 = some (b2, I64TBytes v) := e2
      rw [e2']
      simp only [Option.map_some']
      unfold BTInt64 I64TBytes
      rw [signed_round_trip 8 v (by norm_num; omega) (by norm_num; omega)]

theorem C7_typed_round_trip_witness :
    ((0 : Int) ≤ 1 ∧ (1 : Int) = 1 ∧
      (1 : Int) ≤ BufferStream.Len { vBuffer := [0, 0, 0, 0, 0, 0, 0, 0, 0, 0], readIndex := 1, writeIndex := 1 }) ∧
    ∃ b1 b2,
      BufferStream.WriteInt16 { vBuffer := [0, 0, 0, 0, 0, 0, 0, 0, 0, 0], readIndex := 1, writeIndex := 1 } (-2) = some b1 ∧
      b1.GetInt16 = some (b2, -2) ∧ b2.readIndex = 1 + 2 ∧ b2.writeIndex = 1 + 2 :=
  ⟨by decide,
    (C7_typed_round_trip { vBuffer := [0, 0, 0, 0, 0, 0, 0, 0, 0, 0], readIndex := 1, writeIndex := 1 }
      (by decide) (by decide) (by decide)).2.2.2.1 (-2) (by decide) (by decide)⟩

/-- C8. Growth preserves content: for every finite list of byte sequences
`s1..sk` appended in order with `WriteAuto` to a buffer made by `NewPacker`
(whatever the total length, hence however many times `Resize` runs), each
`WriteAuto(si)` returns `len(si)`, writeIndex ends equal to the total length
`N`, `storage[0, N)` equals the concatenation `s1 ++ ... ++ sk`, and when
`N > 0` `GetBytes(N)` returns that concatenation. -/
theorem C8_growth_preserves_content (ss : List (List Byte)) :
    ∃ b rets, writeAll NewPacker ss = some (b, rets) ∧
      rets = ss.map (fun s => (s.length : Int)) ∧
      b.writeIndex = (ss.flatten.length : Int) ∧
      seg b 0 (ss.flatten.length : Int) = ss.flatten ∧
      ((0 : Int) < (ss.flatten.length : Int) →
        ∃ b', b.GetBytes (ss.flatten.length : Int) = some (b', ss.flatten)) := by
  obtain ⟨b, rets, e, hrets, r, w, l, t⟩ := writeAll_spec ss NewPacker (le_refl _) (by decide)
  have z : NewPacker.writeIndex.toNat = 0 := rfl
  have zw : NewPacker.writeIndex = 0 := rfl
  have zr : NewPacker.readIndex = 0 := rfl
  rw [z, List.take_zero, List.nil_append] at t
  rw [zw, Int.zero_add] at w
  rw [zr] at r
  have hseg : seg b 0 (ss.flatten.length : Int) = ss.flatten := by
    have := seg_of_take b _ [] ss.flatten [] (by simpa using t)
    simpa using this
  refine ⟨b, rets, e, hrets, w, hseg, ?_⟩
  intro _
  refine ⟨{ b with readIndex := b.readIndex + (ss.flatten.length : Int) }, ?_⟩
  rw [GetBytes_ok b _ (by omega) (by omega) (by unfold Available; omega) l]
  rw [r, Int.zero_add, hseg]

/-- C9, as stated, fails: the buffer reached from `NewPacker()` by
`WriteAuto` of 4 zero bytes and `Skip(-2^63)` has capacity 2048,
readIndex = -2^63 and writeIndex = 4, so `0 ≤ writeIndex ≤ capacity`;
`Shift(4)` returns no error and leaves readIndex = 2^63 - 4: the `int64`
subtraction wraps around, readIndex is not reduced by 4. -/
theorem C9_shift_compaction_counterexample :
    (Machine.Skip { vBuffer := List.replicate 2048 0, readIndex := 0, writeIndex := 4 }
        (-9223372036854775808)).1
      = { vBuffer := List.replicate 2048 0, readIndex := -9223372036854775808,
          writeIndex := 4 } ∧
    (Machine.Shift
        { vBuffer := List.replicate 2048 0, readIndex := -9223372036854775808, writeIndex := 4 }
        4).map (fun p => (p.1.readIndex, p.1.writeIndex, p.2))
      = some (9223372036854775804, 0, none) ∧
    (9223372036854775804 : Int) ≠ -9223372036854775808 - 4 := by
  have hlen : ((List.replicate 2048 0 : List Byte).length : Int) = 2048 := by
    rw [List.length_replicate]; rfl
  refine ⟨?_, ?_, by decide⟩
  · unfold Machine.Skip
    rw [if_neg (by decide)]
    rfl
  · rw [machine_Shift_ok _ 4 (by decide) (by decide) (by simp only [Len, hlen]; decide)]
    rfl

/-- C9, amended. Shift compaction: on a buffer with `writeIndex ≤ capacity`
whose writeIndex is an `int64`, for every `n` with `0 ≤ n ≤ writeIndex`,
`Shift(n)` returns no error, writeIndex is reduced by exactly `n`, readIndex is
reduced by `n` in `int64` arithmetic (by exactly `n` whenever `readIndex - n`
is an `int64`, as it is when `readIndex ≥ 0`; modulo `2^64` otherwise), the
capacity is unchanged, and the new `storage[0, writeIndex - n)` equals the
previous `storage[n, writeIndex)`; for every `n > writeIndex`, `Shift(n)`
returns an error and leaves storage and both cursors unchanged. -/
theorem C9_shift_compaction (b : BufferStream) (n : Int) (hwl : b.writeIndex ≤ b.Len)
    (hw64 : isInt64 b.writeIndex) :
    (0 ≤ n → n ≤ b.writeIndex →
      ∃ b', Machine.Shift b n = some (b', none) ∧
        b'.readIndex = wrapInt64 (b.readIndex - n) ∧
        (isInt64 (b.readIndex - n) → b'.readIndex = b.readIndex - n) ∧
        (0 ≤ b.readIndex → isInt64 b.readIndex → b'.readIndex = b.readIndex - n) ∧
        b'.writeIndex = b.writeIndex - n ∧
        b'.Len = b.Len ∧
        seg b' 0 (b.writeIndex - n) = seg b n b.writeIndex) ∧
    (b.writeIndex < n → Machine.Shift b n = some (b, some "Shift Size is too big...")) := by
  constructor
  · intro h0 h1
    obtain ⟨hl, hs⟩ := shifted_store b n (wrapInt64 (b.readIndex - n))
      (wrapInt64 (b.writeIndex - n)) hwl h0 h1
    refine ⟨_, machine_Shift_ok b n h0 h1 hwl, rfl, ?_, ?_, ?_, hl, hs⟩
    · intro h
      exact wrapInt64_of_isInt64 _ h
    · intro hr0 hr
      apply wrapInt64_of_isInt64
      unfold isInt64 at *
      omega
    · apply wrapInt64_of_isInt64
      unfold isInt64 at *
      omega
  · intro h
    unfold Machine.Shift
    rw [if_pos h]

theorem C9_shift_compaction_witness :
    (BufferStream.writeIndex { vBuffer := [1, 2, 3, 4, 5], readIndex := 3, writeIndex := 4 }
        ≤ BufferStream.Len { vBuffer := [1, 2, 3, 4, 5], readIndex := 3, writeIndex := 4 } ∧
      isInt64 4) ∧
    ∃ b', Machine.Shift { vBuffer := [1, 2, 3, 4, 5], readIndex := 3, writeIndex := 4 } 2
        = some (b', none) ∧
      b'.readIndex = 3 - 2 ∧ b'.writeIndex = 4 - 2 ∧
      b'.Len = BufferStream.Len { vBuffer := [1, 2, 3, 4, 5], readIndex := 3, writeIndex := 4 } ∧
      seg b' 0 (4 - 2)
        = seg { vBuffer := [1, 2, 3, 4, 5], readIndex := 3, writeIndex := 4 } 2 4 := by
  obtain ⟨b', h, -, hr, -, hw, hl, hs⟩ :=
    (C9_shift_compaction { vBuffer := [1, 2, 3, 4, 5], readIndex := 3, writeIndex := 4 } 2
      (by decide) (by decide)).1 (by decide) (by decide)
  exact ⟨by decide, b', h, hr (by decide), hw, hl, hs⟩

/-- C10, as stated, fails for `Skip` and for `Shift`.  On the buffer reached
from `NewPacker()` by writing 4 zero bytes and skipping them (capacity 2048,
readIndex = writeIndex = 4) the invariant holds and `Skip(4)` succeeds, leaving
readIndex = 8 above writeIndex = 4.  On the buffer reached from `NewPacker()`
by writing 4 zero bytes (readIndex = 0, writeIndex = 4) the invariant holds and
`Shift(4)` succeeds, leaving readIndex = -4. -/
theorem C10_cursor_invariant_counterexample :
    (Inv { vBuffer := List.replicate 2048 0, readIndex := 4, writeIndex := 4 } ∧
      (BufferStream.Skip
        { vBuffer := List.replicate 2048 0, readIndex := 4, writeIndex := 4 } 4).2 = none ∧
      ¬ Inv (BufferStream.Skip
        { vBuffer := List.replicate 2048 0, readIndex := 4, writeIndex := 4 } 4).1) ∧
    (Inv { vBuffer := List.replicate 2048 0, readIndex := 0, writeIndex := 4 } ∧
      (BufferStream.Shift
        { vBuffer := List.replicate 2048 0, readIndex := 0, writeIndex := 4 } 4).map
          (fun p => (p.1.readIndex, p.1.writeIndex, p.2)) = some (-4, 0, none)) := by
  have hlen : ((List.replicate 2048 0 : List Byte).length : Int) = 2048 := by
    rw [List.length_replicate]; rfl
  refine ⟨⟨?_, ?_, ?_⟩, ?_, ?_⟩
  · simp only [Inv, Len, hlen]; omega
  · simp only [Skip]; rfl
  · simp only [Inv, Len, Skip, hlen]
    rw [if_neg (by omega)]
    simp only
    omega
  · simp only [Inv, Len, hlen]; omega
  · rw [Shift_ok _ 4 (by omega) (by simp only; omega) (by simp only [Len, hlen]; omega)]
    rfl

/-- C10, amended. Cursor invariant: the buffer returned by `NewPacker` and by
`BuildPacker` satisfies `0 ≤ readIndex ≤ writeIndex ≤ capacity`, and `Resize`,
`Seek`, `PeekBytes` (which has no effect on the buffer), `GetBytes`,
`Write`/`WriteAuto`, `ChangeAuto`, `Unpack` and `Packer`, called with any
argument on a buffer that satisfies it, leave the buffer satisfying it whenever
they return, with or without an error.  `Skip(n)` and `Shift(n)` leave the
buffer unchanged when they return an error; when they succeed, the invariant
holds afterwards if and only if `0 ≤ readIndex + n ≤ writeIndex` for `Skip(n)`
and `n ≤ readIndex` for `Shift(n)`. -/
theorem C10_cursor_invariant (b : BufferStream) (hi : Inv b) :
    Inv NewPacker ∧
    (∀ body, ∃ out, BuildPacker body = some out ∧ Inv out) ∧
    (∀ n, Inv (b.Resize n).1) ∧
    (∀ n, Inv (b.Seek n).1) ∧
    (∀ n b' r, b.GetBytes n = some (b', r) → Inv b') ∧
    (∀ buf n b' k, b.Write buf n = some (b', k) → Inv b') ∧
    (∀ buf b' k, b.WriteAuto buf = some (b', k) → Inv b') ∧
    (∀ pos buf b', b.ChangeAuto pos buf = some b' → Inv b') ∧
    (∀ shift b' out err, b.Unpack shift = some (b', out, err) → Inv b') ∧
    (∀ b' out err, b.Packer = some (b', out, err) → Inv b') ∧
    (∀ n, b.writeIndex < n → b.Skip n = (b, some "Skip Size is too big...")) ∧
    (∀ n, n ≤ b.writeIndex →
      (b.Skip n).2 = none ∧
      (Inv (b.Skip n).1 ↔ 0 ≤ b.readIndex + n ∧ b.readIndex + n ≤ b.writeIndex)) ∧
    (∀ n b' err, b.Shift n = some (b', err) → err ≠ none → b' = b) ∧
    (∀ n b', b.Shift n = some (b', none) → (Inv b' ↔ n ≤ b.readIndex)) := by
  refine ⟨by decide, ?_, fun n => Resize_inv b n hi, fun n => Seek_inv b n hi,
    fun n b' r => GetBytes_inv b n b' r hi, fun buf n b' k => Write_inv b buf n b' k hi,
    fun buf b' k => Write_inv b buf _ b' k hi,
    fun pos buf b' => ChangeAuto_inv b pos buf b' hi,
    fun s b' out err => Unpack_inv b s b' out err hi,
    fun b' out err => Packer_inv b b' out err hi, ?_, ?_, ?_, ?_⟩
  · intro body
    obtain ⟨out, hout, hr, hw, hl, -⟩ := BuildPacker_spec body
    exact ⟨out, hout, by omega, by omega, hl⟩
  · intro n hn
    unfold Skip
    rw [if_pos hn]
  · intro n hn
    obtain ⟨h0, h1, h2⟩ := hi
    unfold Skip
    rw [if_neg (by omega)]
    refine ⟨rfl, ?_⟩
    unfold Inv
    simp only
    constructor
    · rintro ⟨a, c, -⟩; exact ⟨a, c⟩
    · rintro ⟨a, c⟩; exact ⟨a, c, h2⟩
  · intro n b' err h hne
    unfold Shift at h
    split_ifs at h with hc
    · exact ((Prod.mk.inj (Option.some.inj h)).1).symm
    · cases hs : goSlice b.vBuffer n b.Len with
      | none => rw [hs] at h; exact absurd h (by simp)
      | some rest =>
        rw [hs] at h
        exact absurd ((Prod.mk.inj (Option.some.inj h)).2).symm hne
  · intro n b' h
    obtain ⟨h0, h1, h2⟩ := hi
    unfold Shift at h
    split_ifs at h with hc
    · exact absurd (Prod.mk.inj (Option.some.inj h)).2 (by simp)
    · cases hs : goSlice b.vBuffer n b.Len with
      | none => rw [hs] at h; exact absurd h (by simp)
      | some rest =>
        rw [hs] at h
        obtain ⟨g0, g1, -, -⟩ := goSlice_some _ _ _ _ hs
        rw [← (Prod.mk.inj (Option.some.inj h)).1]
        unfold Inv Len at *
        simp only [goCopy_length]
        omega

theorem C10_cursor_invariant_witness :
    Inv { vBuffer := [1, 2, 3, 4, 5], readIndex := 1, writeIndex := 4 } ∧
    ∀ n b', BufferStream.Shift { vBuffer := [1, 2, 3, 4, 5], readIndex := 1, writeIndex := 4 } n
        = some (b', none) → (Inv b' ↔ n ≤ 1) :=
  ⟨by decide,
    (C10_cursor_invariant { vBuffer := [1, 2, 3, 4, 5], readIndex := 1, writeIndex := 4 }
      (by decide)).2.2.2.2.2.2.2.2.2.2.2.2.2⟩

/-- C11. Peek and take: on a buffer with `0 ≤ readIndex ≤ writeIndex ≤ capacity`
and for every `n ≥ 0`, `PeekBytes(n)` (which has no effect on the buffer)
returns `storage[readIndex, readIndex+n)` when `n ≤ Available()` and the empty
sequence when `n > Available()`; `GetBytes(n)` returns the same bytes as
`PeekBytes(n)`, advances readIndex by exactly `n` when that result is non-empty
and leaves readIndex unchanged when it is empty, and never changes storage or
writeIndex. -/
theorem C11_peek_and_take (b : BufferStream) (n : Int) (hi : Inv b) (hn : 0 ≤ n) :
    (n ≤ b.Available → b.PeekBytes n = some (seg b b.readIndex (b.readIndex + n))) ∧
    (b.Available < n → b.PeekBytes n = some []) ∧
    (∃ bytes b', b.PeekBytes n = some bytes ∧ b.GetBytes n = some (b', bytes) ∧
      (bytes ≠ [] → b'.readIndex = b.readIndex + n) ∧
      (bytes = [] → b'.readIndex = b.readIndex) ∧
      b'.vBuffer = b.vBuffer ∧ b'.writeIndex = b.writeIndex) := by
  obtain ⟨h0, h1, h2⟩ := hi
  have hbig : b.Available < n → b.PeekBytes n = some [] := by
    intro h
    unfold PeekBytes
    rw [if_pos h]
  refine ⟨fun h => PeekBytes_ok b n h0 hn h h2, hbig, ?_⟩
  by_cases ha : n ≤ b.Available
  · refine ⟨_, _, PeekBytes_ok b n h0 hn ha h2, GetBytes_ok b n h0 hn ha h2,
      fun _ => rfl, ?_, rfl, rfl⟩
    intro he
    have hl := seg_length b b.readIndex (b.readIndex + n) h0 (by omega)
      (by unfold Available at ha; omega)
    rw [he] at hl
    simp only [List.length_nil] at hl
    simp only
    omega
  · have hp := hbig (by omega)
    refine ⟨[], b, hp, ?_, fun h => absurd rfl h, fun _ => rfl, rfl, rfl⟩
    unfold GetBytes
    rw [hp]
    rfl

theorem C11_peek_and_take_witness :
    (Inv { vBuffer := [1, 2, 3, 4, 5], readIndex := 1, writeIndex := 4 } ∧ (0 : Int) ≤ 2) ∧
    BufferStream.GetBytes { vBuffer := [1, 2, 3, 4, 5], readIndex := 1, writeIndex := 4 } 2
      = some ({ vBuffer := [1, 2, 3, 4, 5], readIndex := 3, writeIndex := 4 }, [2, 3]) ∧
    ((2 : Int) ≤
        BufferStream.Available { vBuffer := [1, 2, 3, 4, 5], readIndex := 1, writeIndex := 4 } →
      BufferStream.PeekBytes { vBuffer := [1, 2, 3, 4, 5], readIndex := 1, writeIndex := 4 } 2
        = some (seg { vBuffer := [1, 2, 3, 4, 5], readIndex := 1, writeIndex := 4 } 1 (1 + 2))) :=
  ⟨by decide, by decide,
    (C11_peek_and_take { vBuffer := [1, 2, 3, 4, 5], readIndex := 1, writeIndex := 4 } 2
      (by decide) (by decide)).1⟩

/-- C12, as stated, fails when `bytes` is a view of the storage that the call
overwrites.  On the buffer with storage `[1,2,3,4,5]`, readIndex 0 and
writeIndex 5, `PeekBytes(4)` returns the view `storage[0,4)`, which holds
`[1,2,3,4]`; `ChangeAuto(1, that view)` fits (`1 + 4 ≤ 5`), and its forward
byte loop reads each byte after it has written the one before, so afterwards
`storage[1,5)` is `[1,1,1,1]`, not `[1,2,3,4]`. -/
theorem C12_patch_counterexample :
    BufferStream.PeekBytes { vBuffer := [1, 2, 3, 4, 5], readIndex := 0, writeIndex := 5 } 4
      = some [1, 2, 3, 4] ∧
    (BufferStream.ChangeAutoView
        { vBuffer := [1, 2, 3, 4, 5], readIndex := 0, writeIndex := 5 } 1 0 4).map
        (fun b' => (b'.vBuffer, seg b' 1 (1 + 4)))
      = some ([1, 1, 1, 1, 1], [1, 1, 1, 1]) ∧
    ([1, 1, 1, 1] : List Byte) ≠ [1, 2, 3, 4] := by
  decide

/-- C12, amended. Patch: for every buffer, every `pos ≥ 0` and every byte
sequence `bytes` that shares no memory with the buffer's storage,
`ChangeAuto(pos, bytes)` returns (it has no result to report) and leaves
readIndex, writeIndex and the capacity unchanged; if
`pos + len(bytes) > capacity` it leaves the whole storage unchanged; otherwise
afterwards `storage[pos, pos+len(bytes))` equals `bytes`, and the storage
before `pos` and from `pos+len(bytes)` on is unchanged. -/
theorem C12_patch (b : BufferStream) (pos : Int) (bytes : List Byte) (hp : 0 ≤ pos) :
    ∃ b', b.ChangeAuto pos bytes = some b' ∧
      b'.readIndex = b.readIndex ∧ b'.writeIndex = b.writeIndex ∧ b'.Len = b.Len ∧
      (pos + (bytes.length : Int) > b.Len → b'.vBuffer = b.vBuffer) ∧
      (pos + (bytes.length : Int) ≤ b.Len →
        seg b' pos (pos + (bytes.length : Int)) = bytes ∧
        b'.vBuffer.take pos.toNat = b.vBuffer.take pos.toNat ∧
        b'.vBuffer.drop (pos + (bytes.length : Int)).toNat
          = b.vBuffer.drop (pos + (bytes.length : Int)).toNat) := by
  by_cases hfit : pos + (bytes.length : Int) ≤ b.Len
  · have hl : pos.toNat + bytes.length ≤ b.vBuffer.length := by unfold Len at hfit; omega
    have hpre : (b.vBuffer.take pos.toNat).length = pos.toNat := by
      rw [List.length_take]; omega
    refine ⟨_, ChangeAuto_ok b pos bytes hp hfit, rfl, rfl, ?_, fun h => absurd hfit (by omega),
      fun _ => ⟨?_, ?_, ?_⟩⟩
    · unfold Len
      simp only [List.length_append, List.length_take, List.length_drop]
      omega
    · have := seg_of_take
        { b with vBuffer :=
            b.vBuffer.take pos.toNat ++ bytes ++ b.vBuffer.drop (pos.toNat + bytes.length) }
        (pos.toNat + bytes.length) (b.vBuffer.take pos.toNat) bytes []
        (by
          simp only [List.append_nil]
          apply List.take_left'
          rw [List.length_append, hpre])
      rw [hpre] at this
      have e : ((pos.toNat : Nat) : Int) = pos := by omega
      rw [e] at this
      exact this
    · simp only
      rw [List.append_assoc, List.take_left' hpre]
    · simp only
      have e : (pos + (bytes.length : Int)).toNat = pos.toNat + bytes.length := by omega
      rw [e, List.drop_left' (by rw [List.length_append, hpre])]
  · refine ⟨b, ?_, rfl, rfl, rfl, fun _ => rfl, fun h => absurd h hfit⟩
    unfold ChangeAuto
    simp only
    rw [if_pos (by omega)]

theorem C12_patch_witness :
    (0 : Int) ≤ 1 ∧
    ∃ b', BufferStream.ChangeAuto { vBuffer := [1, 2, 3, 4, 5], readIndex := 0, writeIndex := 2 }
        1 [8, 9] = some b' ∧
      b'.readIndex = 0 ∧ b'.writeIndex = 2 ∧
      b'.Len = BufferStream.Len { vBuffer := [1, 2, 3, 4, 5], readIndex := 0, writeIndex := 2 } ∧
      ((1 : Int) + (([8, 9] : List Byte).length : Int)
          > BufferStream.Len { vBuffer := [1, 2, 3, 4, 5], readIndex := 0, writeIndex := 2 } →
        b'.vBuffer = [1, 2, 3, 4, 5]) ∧
      ((1 : Int) + (([8, 9] : List Byte).length : Int)
          ≤ BufferStream.Len { vBuffer := [1, 2, 3, 4, 5], readIndex := 0, writeIndex := 2 } →
        seg b' 1 (1 + (([8, 9] : List Byte).length : Int)) = [8, 9] ∧
        b'.vBuffer.take (1 : Int).toNat = ([1, 2, 3, 4, 5] : List Byte).take (1 : Int).toNat ∧
        b'.vBuffer.drop ((1 : Int) + (([8, 9] : List Byte).length : Int)).toNat
          = ([1, 2, 3, 4, 5] : List Byte).drop
              ((1 : Int) + (([8, 9] : List Byte).length : Int)).toNat) :=
  ⟨by decide,
    C12_patch { vBuffer := [1, 2, 3, 4, 5], readIndex := 0, writeIndex := 2 } 1 [8, 9]
      (by decide)⟩

/-- C13, as stated, fails: on the buffer made by `NewPacker` (writeIndex 0,
capacity 2048) `WriteAuto` of 2049 bytes exceeds the capacity and leaves the
capacity at `0 + 2049 + 2048 = 4097`, not at the previous capacity
`+ 2049 + 2048 = 6145`. -/
theorem C13_append_growth_counterexample :
    NewPacker.writeIndex + ((List.replicate 2049 (0 : Byte)).length : Int) > NewPacker.Len ∧
    (NewPacker.WriteAuto (List.replicate 2049 0)).map (fun p => p.1.Len) = some 4097 ∧
    (4097 : Int) ≠ NewPacker.Len + ((List.replicate 2049 (0 : Byte)).length : Int) + 2048 := by
  have hl : NewPacker.Len = 2048 := by
    unfold Len NewPacker
    rw [List.length_replicate]
    rfl
  have hw : NewPacker.writeIndex = 0 := rfl
  have hn : ((List.replicate 2049 (0 : Byte)).length : Int) = 2049 := by
    rw [List.length_replicate]; rfl
  refine ⟨by rw [hw, hl, hn]; decide, ?_, by rw [hl, hn]; decide⟩
  unfold WriteAuto
  rw [Write_eq NewPacker _ _ (le_refl _) (by omega)]
  simp only [Option.map_some', Len]
  rw [Write_length NewPacker _ _ (le_refl _) (by omega), hw, hl, hn]
  rfl

/-- C13, amended. Append growth policy: on a buffer with `0 ≤ writeIndex`,
`WriteAuto(bytes)` returns `len(bytes)`; when
`writeIndex + len(bytes) > capacity` the capacity afterwards equals the previous
`writeIndex + len(bytes) + 2048` (the end position of the write plus the default
increment); when `writeIndex + len(bytes) ≤ capacity` the capacity is
unchanged. -/
theorem C13_append_growth (b : BufferStream) (bytes : List Byte) (h0 : 0 ≤ b.writeIndex) :
    ∃ b', b.WriteAuto bytes = some (b', (bytes.length : Int)) ∧
      (b.writeIndex + (bytes.length : Int) > b.Len →
        b'.Len = b.writeIndex + (bytes.length : Int) + 2048) ∧
      (b.writeIndex + (bytes.length : Int) ≤ b.Len → b'.Len = b.Len) := by
  refine ⟨_, Write_eq b bytes _ h0 (by omega), ?_, ?_⟩
  · intro h
    have hl := Write_length b bytes _ h0 (Int.ofNat_nonneg bytes.length)
    rw [if_pos h] at hl
    exact hl
  · intro h
    have hl := Write_length b bytes _ h0 (Int.ofNat_nonneg bytes.length)
    rw [if_neg (by omega)] at hl
    exact hl

theorem C13_append_growth_witness :
    (0 : Int) ≤ 2 ∧
    ∃ b', BufferStream.WriteAuto { vBuffer := [1, 2, 3, 4], readIndex := 0, writeIndex := 2 }
        [7, 8, 9] = some (b', (([7, 8, 9] : List Byte).length : Int)) ∧
      ((2 : Int) + (([7, 8, 9] : List Byte).length : Int)
          > BufferStream.Len { vBuffer := [1, 2, 3, 4], readIndex := 0, writeIndex := 2 } →
        b'.Len = 2 + (([7, 8, 9] : List Byte).length : Int) + 2048) ∧
      ((2 : Int) + (([7, 8, 9] : List Byte).length : Int)
          ≤ BufferStream.Len { vBuffer := [1, 2, 3, 4], readIndex := 0, writeIndex := 2 } →
        b'.Len = BufferStream.Len { vBuffer := [1, 2, 3, 4], readIndex := 0, writeIndex := 2 }) :=
  ⟨by decide,
    C13_append_growth { vBuffer := [1, 2, 3, 4], readIndex := 0, writeIndex := 2 } [7, 8, 9]
      (by decide)⟩

/-- C14, as stated, fails: on the buffer made by `NewPacker` (capacity 2048)
`Resize(2^62)` passes the guard, `2^62 ≥ 2048 + 2048`, and then
`make([]byte, 2^62)` panics, whatever memory the environment has: the call
returns neither an error nor a buffer of capacity `2^62`. -/
theorem C14_grow_counterexample :
    NewPacker.Len + 2048 ≤ 4611686018427387904 ∧
    (∀ mem : Int, Machine.Resize mem NewPacker 4611686018427387904 = none) := by
  have hl : NewPacker.Len = 2048 := by
    unfold Len NewPacker
    rw [List.length_replicate]
    rfl
  refine ⟨by rw [hl]; decide, fun mem => ?_⟩
  exact machine_Resize_panics mem NewPacker _ (by rw [hl]; decide) (by rw [hl]; decide)
    (Or.inl (by decide))

/-- C14, amended. Grow: for every buffer whose store Go can hold (capacity at
most the allocator's limit `2^48`) and every `newSize`, `Resize(newSize)`
returns an error when `newSize < capacity + 2048`, and then leaves storage and
both cursors unchanged; otherwise, when `make([]byte, newSize)` returns
(`newSize` within the allocator's limit and within the memory `mem` of the
environment), it returns no error, the capacity becomes exactly `newSize`, the
old storage `[0, old capacity)` is unchanged at the same indices, the added
bytes are zero, and readIndex and writeIndex are unchanged; and when `make`
does not return, `Resize` does not return. -/
theorem C14_grow (mem : Int) (b : BufferStream) (newSize : Int) (hlen : b.Len ≤ maxAlloc) :
    (newSize < b.Len + 2048 →
      Machine.Resize mem b newSize = some (b, some "NewSize is too short...")) ∧
    (b.Len + 2048 ≤ newSize → newSize ≤ maxAlloc → newSize ≤ mem →
      ∃ b', Machine.Resize mem b newSize = some (b', none) ∧
        b'.Len = newSize ∧
        b'.vBuffer.take b.vBuffer.length = b.vBuffer ∧
        b'.vBuffer.drop b.vBuffer.length = List.replicate (newSize - b.Len).toNat 0 ∧
        b'.readIndex = b.readIndex ∧ b'.writeIndex = b.writeIndex) ∧
    (b.Len + 2048 ≤ newSize → (maxAlloc < newSize ∨ mem < newSize) →
      Machine.Resize mem b newSize = none) := by
  refine ⟨fun h => machine_Resize_refuses mem b newSize hlen h, ?_,
    fun h hbig => machine_Resize_panics mem b newSize hlen h hbig⟩
  intro h hle hmem
  rw [machine_Resize_agrees mem b newSize hlen (Or.inr ⟨hle, hmem⟩),
    Resize_ok b newSize (by unfold defaultSize; omega)]
  refine ⟨_, rfl, ?_, ?_, ?_, rfl, rfl⟩
  · unfold Len at h ⊢
    simp only [List.length_append, List.length_replicate]
    omega
  · simp only
    rw [List.take_left]
  · simp only
    rw [List.drop_left]
    congr 1
    unfold Len at h ⊢
    omega

theorem C14_grow_witness :
    BufferStream.Len { vBuffer := [1, 2, 3], readIndex := 1, writeIndex := 2 } ≤ maxAlloc ∧
    ∃ b', Machine.Resize 4096 { vBuffer := [1, 2, 3], readIndex := 1, writeIndex := 2 } 2052
        = some (b', none) ∧
      b'.Len = 2052 ∧
      b'.vBuffer.take ([1, 2, 3] : List Byte).length = [1, 2, 3] ∧
      b'.vBuffer.drop ([1, 2, 3] : List Byte).length
        = List.replicate ((2052 : Int)
            - BufferStream.Len { vBuffer := [1, 2, 3], readIndex := 1, writeIndex := 2 }).toNat 0 ∧
      b'.readIndex = 1 ∧ b'.writeIndex = 2 :=
  ⟨by decide,
    (C14_grow 4096 { vBuffer := [1, 2, 3], readIndex := 1, writeIndex := 2 } 2052
      (by decide)).2.1 (by decide) (by decide) (by decide)⟩

/-- C15, as stated, fails: the buffer reached from `NewPacker()` by `Skip(-1)`
has readIndex = -1 and writeIndex = 0; `Skip(-2^63)` passes the guard
(`-2^63 ≤ writeIndex`), returns no error and leaves readIndex = 2^63 - 1: the
`int64` addition wraps around, readIndex is not increased by `n = -2^63`. -/
theorem C15_skip_counterexample :
    (Machine.Skip NewPacker (-1)).1.readIndex = -1 ∧
    (Machine.Skip NewPacker (-1)).1.writeIndex = 0 ∧
    (Machine.Skip (Machine.Skip NewPacker (-1)).1 (-9223372036854775808)).2 = none ∧
    (Machine.Skip (Machine.Skip NewPacker (-1)).1 (-9223372036854775808)).1.readIndex
      = 9223372036854775807 ∧
    (9223372036854775807 : Int) ≠ -1 + -9223372036854775808 := by
  have h1 : Machine.Skip NewPacker (-1)
      = ({ NewPacker with readIndex := -1 }, none) := by
    unfold Machine.Skip
    rw [if_neg (by decide)]
    rfl
  have h2 : Machine.Skip { NewPacker with readIndex := -1 } (-9223372036854775808)
      = ({ NewPacker with readIndex := 9223372036854775807 }, none) := by
    unfold Machine.Skip
    rw [if_neg (by decide)]
    rfl
  rw [h1]
  refine ⟨rfl, rfl, ?_, ?_, by decide⟩
  · show (Machine.Skip { NewPacker with readIndex := -1 } (-9223372036854775808)).2 = none
    rw [h2]
  · show (Machine.Skip { NewPacker with readIndex := -1 }
        (-9223372036854775808)).1.readIndex = 9223372036854775807
    rw [h2]

/-- C15, amended. Skip: for every buffer and every `n`, `Skip(n)` returns an
error if and only if `n > writeIndex`, and then leaves the buffer unchanged;
otherwise it adds `n` to readIndex in `int64` arithmetic (readIndex increases
by exactly `n` whenever `readIndex + n` is an `int64`, and wraps around modulo
`2^64` otherwise) and changes neither storage nor writeIndex.  The bound is
writeIndex and not `Available()`: there is a buffer with
`0 ≤ readIndex ≤ writeIndex` and an `n` with `Available() < n ≤ writeIndex` for
which `Skip(n)` succeeds and increases readIndex by exactly `n`. -/
theorem C15_skip :
    (∀ (b : BufferStream) (n : Int),
      ((Machine.Skip b n).2 ≠ none ↔ n > b.writeIndex) ∧
      (n > b.writeIndex → (Machine.Skip b n).1 = b) ∧
      (n ≤ b.writeIndex →
        (Machine.Skip b n).2 = none ∧
        (Machine.Skip b n).1.readIndex = wrapInt64 (b.readIndex + n) ∧
        (isInt64 (b.readIndex + n) → (Machine.Skip b n).1.readIndex = b.readIndex + n) ∧
        (Machine.Skip b n).1.vBuffer = b.vBuffer ∧
        (Machine.Skip b n).1.writeIndex = b.writeIndex)) ∧
    (∃ (b : BufferStream) (n : Int),
      0 ≤ b.readIndex ∧ b.readIndex ≤ b.writeIndex ∧
      b.Available < n ∧ n ≤ b.writeIndex ∧ (Machine.Skip b n).2 = none ∧
      (Machine.Skip b n).1.readIndex = b.readIndex + n) := by
  constructor
  · intro b n
    by_cases h : n > b.writeIndex
    · have e : Machine.Skip b n = (b, some "Skip Size is too big...") := by
        unfold Machine.Skip; rw [if_pos h]
      rw [e]
      exact ⟨⟨fun _ => h, fun _ => by simp⟩, fun _ => rfl, fun h' => absurd h (by omega)⟩
    · have e : Machine.Skip b n
          = ({ b with readIndex := wrapInt64 (b.readIndex + n) }, none) := by
        unfold Machine.Skip; rw [if_neg h]
      rw [e]
      exact ⟨⟨fun hne => absurd rfl hne, fun h' => absurd h' h⟩, fun h' => absurd h' h,
        fun _ => ⟨rfl, rfl, fun hr => wrapInt64_of_isInt64 _ hr, rfl, rfl⟩⟩
  · exact ⟨{ vBuffer := [1, 2, 3, 4], readIndex := 3, writeIndex := 4 }, 4,
      by decide, by decide, by decide, by decide, by decide, by decide⟩

/-- C16. Seek: for every buffer and every `pos`, `Seek(pos)` returns an error if
and only if `pos > writeIndex` or `pos < 0`, and then leaves the buffer
unchanged; otherwise it returns no error, sets readIndex to exactly `pos` and
changes neither storage nor writeIndex, so that `ReadPos() = pos`
afterwards. -/
theorem C16_seek (b : BufferStream) (pos : Int) :
    ((b.Seek pos).2 ≠ none ↔ (pos > b.writeIndex ∨ pos < 0)) ∧
    ((pos > b.writeIndex ∨ pos < 0) → (b.Seek pos).1 = b) ∧
    (¬ (pos > b.writeIndex ∨ pos < 0) →
      (b.Seek pos).2 = none ∧
      (b.Seek pos).1.readIndex = pos ∧
      (b.Seek pos).1.vBuffer = b.vBuffer ∧
      (b.Seek pos).1.writeIndex = b.writeIndex ∧
      (b.Seek pos).1.ReadPos = pos) := by
  by_cases h1 : pos > b.writeIndex
  · have e : b.Seek pos = (b, some "Seek Pos OverFlow...") := by
      unfold Seek; rw [if_pos h1]
    rw [e]
    exact ⟨⟨fun _ => Or.inl h1, fun _ => by simp⟩, fun _ => rfl,
      fun hn => absurd (Or.inl h1) hn⟩
  · by_cases h2 : pos < 0
    · have e : b.Seek pos = (b, some "Unknow Seek Pos...") := by
        unfold Seek; rw [if_neg h1, if_pos h2]
      rw [e]
      exact ⟨⟨fun _ => Or.inr h2, fun _ => by simp⟩, fun _ => rfl,
        fun hn => absurd (Or.inr h2) hn⟩
    · have e : b.Seek pos = ({ b with readIndex := pos }, none) := by
        unfold Seek; rw [if_neg h1, if_neg h2]
      rw [e]
      refine ⟨⟨fun hne => absurd rfl hne, fun h' => ?_⟩, fun h' => ?_,
        fun _ => ⟨rfl, rfl, rfl, rfl, rfl⟩⟩
      · rcases h' with h' | h'
        · exact absurd h' h1
        · exact absurd h' h2
      · rcases h' with h' | h'
        · exact absurd h' h1
        · exact absurd h' h2

/-- C17. Unpack without advance: on a buffer with
`0 ≤ readIndex ≤ writeIndex ≤ capacity` on which `Unpack(false)` succeeds with
length prefix `L`, afterwards readIndex has increased by exactly `4 + L`, and
writeIndex, the capacity and every storage byte are unchanged; the returned
buffer is a new buffer, built by `BuildPacker` from the body, whose bytes
`[4, 4+L)` equal the source's `storage[old readIndex + 4, old readIndex + 4 + L)`. -/
theorem C17_unpack_without_advance (b b' out : BufferStream) (hi : Inv b)
    (h : b.Unpack false = some (b', some out, none)) :
    b'.readIndex = b.readIndex + (4 + prefixLen b) ∧
    b'.writeIndex = b.writeIndex ∧ b'.Len = b.Len ∧ b'.vBuffer = b.vBuffer ∧
    BuildPacker (seg b (b.readIndex + 4) (b.readIndex + 4 + prefixLen b)) = some out ∧
    seg out 4 (4 + prefixLen b) = seg b (b.readIndex + 4) (b.readIndex + 4 + prefixLen b) := by
  obtain ⟨h4, hL, hout, hb'⟩ := Unpack_success b false b' out hi h
  simp only [Bool.false_eq_true, if_false] at hb'
  subst hb'
  obtain ⟨h0, h1, h2⟩ := hi
  have hLn : 0 ≤ prefixLen b := by unfold prefixLen; omega
  unfold Available at h4 hL
  refine ⟨by simp only; omega, rfl, rfl, rfl, hout, ?_⟩
  obtain ⟨-, -, hseg⟩ := BuildPacker_body _ out hout
  have hl := seg_length b (b.readIndex + 4) (b.readIndex + 4 + prefixLen b) (by omega)
    (by omega) (by omega)
  have e : ((seg b (b.readIndex + 4) (b.readIndex + 4 + prefixLen b)).length : Int)
      = prefixLen b := by
    rw [hl]; omega
  rw [e] at hseg
  exact hseg

theorem C17_unpack_without_advance_witness :
    Inv { vBuffer := [9, 0, 0, 0, 2, 7, 8, 5], readIndex := 1, writeIndex := 8 } ∧
    ∃ b' out,
      BufferStream.Unpack { vBuffer := [9, 0, 0, 0, 2, 7, 8, 5], readIndex := 1, writeIndex := 8 } false
        = some (b', some out, none) ∧
      b'.readIndex = 7 ∧ b'.writeIndex = 8 ∧ b'.vBuffer = [9, 0, 0, 0, 2, 7, 8, 5] ∧
      seg out 4 6 = [7, 8] := by
  have hinv : Inv { vBuffer := [9, 0, 0, 0, 2, 7, 8, 5], readIndex := 1, writeIndex := 8 } := by
    decide
  obtain ⟨o, -, hun⟩ := Unpack_ready
    { vBuffer := [9, 0, 0, 0, 2, 7, 8, 5], readIndex := 1, writeIndex := 8 } false hinv
    (by decide) (by decide)
  obtain ⟨hr, hw, -, hv, -, hs⟩ := C17_unpack_without_advance _ _ o hinv hun
  exact ⟨hinv, _, o, hun, hr.trans (by decide), hw, hv, hs.trans (by decide)⟩

/-- C18. Pack and unpack do not round-trip: for every buffer with
`4 ≤ writeIndex ≤ capacity` and `writeIndex < 2^32`, `Packer()` succeeds, and
when the bytes it returns are written with `WriteAuto` into a buffer made by
`NewPacker`, `Unpack` on that buffer (with either flag value) returns the
not-ready error and a nil buffer: the header written by `Packer` holds
writeIndex, which counts its own 4 bytes, while `Unpack` requires 4 more bytes
than the header value. -/
theorem C18_pack_unpack_mismatch (b : BufferStream) (shift : Bool)
    (h4 : 4 ≤ b.writeIndex) (hwl : b.writeIndex ≤ b.Len) (h32 : b.writeIndex < 2 ^ 32) :
    ∃ b' out nb, b.Packer = some (b', out, none) ∧
      NewPacker.WriteAuto out = some (nb, (out.length : Int)) ∧
      prefixLen nb = b.writeIndex ∧ nb.Available = b.writeIndex ∧
      nb.Unpack shift = some (nb, none, notReady) := by
  have hl : (U32TBytes b.writeIndex.toNat).length = 4 := beEncode_length _ _
  have hvl : b.writeIndex.toNat ≤ b.vBuffer.length := by unfold Len at hwl; omega
  have hp := Packer_ok b h4 hwl
  rw [toUint32_small _ (by omega) h32] at hp
  have hout : (U32TBytes b.writeIndex.toNat ++ b.vBuffer.drop 4).take b.writeIndex.toNat
      = U32TBytes b.writeIndex.toNat ++ (b.vBuffer.drop 4).take (b.writeIndex.toNat - 4) := by
    rw [List.take_append_eq_append_take, hl, List.take_of_length_le (by omega)]
  have holen : ((U32TBytes b.writeIndex.toNat ++
      (b.vBuffer.drop 4).take (b.writeIndex.toNat - 4)).length : Int) = b.writeIndex := by
    rw [List.length_append, hl, List.length_take, List.length_drop]
    omega
  rw [hout] at hp
  obtain ⟨nb, e, r, w, l, t⟩ := WriteAuto_spec NewPacker
    (U32TBytes b.writeIndex.toNat ++ (b.vBuffer.drop 4).take (b.writeIndex.toNat - 4))
    (le_refl _) (by decide)
  have z : NewPacker.writeIndex.toNat = 0 := rfl
  have zw : NewPacker.writeIndex = 0 := rfl
  have zr : NewPacker.readIndex = 0 := rfl
  rw [z, List.take_zero, List.nil_append] at t
  rw [zw, Int.zero_add, holen] at w
  rw [zr] at r
  have hpl : prefixLen nb = b.writeIndex := by
    rw [prefixLen_of_take nb _ b.writeIndex.toNat _ r (by norm_num at h32 ⊢; omega) t]
    omega
  have hav : nb.Available = b.writeIndex := by unfold Available; omega
  refine ⟨_, _, nb, hp, e, hpl, hav, ?_⟩
  exact Unpack_notReady nb shift ⟨by omega, by omega, l⟩ (Or.inr (by omega))

theorem C18_pack_unpack_mismatch_witness :
    ((4 : Int) ≤ 6 ∧
      (6 : Int) ≤ BufferStream.Len
        { vBuffer := [0, 0, 0, 0, 1, 2, 0], readIndex := 0, writeIndex := 6 } ∧
      (6 : Int) < 2 ^ 32) ∧
    ∃ b' out nb,
      BufferStream.Packer { vBuffer := [0, 0, 0, 0, 1, 2, 0], readIndex := 0, writeIndex := 6 }
        = some (b', out, none) ∧
      NewPacker.WriteAuto out = some (nb, (out.length : Int)) ∧
      prefixLen nb = 6 ∧ nb.Available = 6 ∧
      nb.Unpack true = some (nb, none, notReady) :=
  ⟨by decide,
    C18_pack_unpack_mismatch
      { vBuffer := [0, 0, 0, 0, 1, 2, 0], readIndex := 0, writeIndex := 6 } true
      (by decide) (by decide) (by decide)⟩

/-- C19, as stated, fails, whatever memory the environment has: on the buffer
made by `NewPacker` (writeIndex 0, capacity 2048), `Write(buf, 2^63 - 1)` with
the empty `buf` computes `endPos = 2^63 - 1`, the size `endPos + 2048` it asks
of `Resize` wraps around to `-2^63 + 2047`, `Resize` refuses it and `Write`
returns -1 with the buffer unchanged; and `Write(buf, 2^62)` asks `Resize` for
`2^62 + 2048` bytes, where `make` panics. -/
theorem C19_write_never_fails_counterexample :
    (0 : Int) ≤ NewPacker.writeIndex ∧
    (∀ mem : Int,
      Machine.Write mem NewPacker [] 9223372036854775807 = some (NewPacker, -1)) ∧
    (∀ mem : Int, Machine.Write mem NewPacker [] 4611686018427387904 = none) := by
  have hl : NewPacker.Len = 2048 := by
    unfold Len NewPacker
    rw [List.length_replicate]
    rfl
  have hw : NewPacker.writeIndex = 0 := rfl
  have hmax : NewPacker.Len ≤ maxAlloc := by rw [hl]; decide
  refine ⟨by decide, fun mem => ?_, fun mem => ?_⟩
  · unfold Machine.Write
    simp only [hw, hl]
    have e1 : wrapInt64 (0 + 9223372036854775807) = 9223372036854775807 := by decide
    have e2 : wrapInt64 (9223372036854775807 + defaultSize) = -9223372036854773761 := by
      decide
    rw [e1, e2, if_pos (by decide),
      machine_Resize_refuses mem NewPacker _ hmax (by rw [hl]; decide)]
  · unfold Machine.Write
    simp only [hw, hl]
    have e1 : wrapInt64 (0 + 4611686018427387904) = 4611686018427387904 := by decide
    have e2 : wrapInt64 (4611686018427387904 + defaultSize) = 4611686018427389952 := by
      decide
    rw [e1, e2, if_pos (by decide),
      machine_Resize_panics mem NewPacker _ hmax (by rw [hl]; decide)
        (Or.inl (by decide))]

/-- C19, amended. The write failure value is unreachable within the range of
`int64` and where the allocation succeeds: on a buffer with `writeIndex ≥ 0`
whose store Go can hold (capacity at most `2^48`), for every byte sequence
`buf` and every `wlen ≥ 0` such that `writeIndex + wlen ≤ capacity`, or
`writeIndex + wlen + 2048` is within the allocator's limit `2^48` and within
the memory `mem` of the environment, `Write(buf, wlen)` returns `wlen` (and so
not -1): whenever it calls `Resize` the requested size
`writeIndex + wlen + 2048` is at least `capacity + 2048` and `Resize` returns
no error.  The call advances writeIndex by exactly `wlen`, leaves readIndex
unchanged, leaves the bytes of the old storage below the old writeIndex
unchanged, and copies `min(wlen, len(buf))` bytes of `buf` to storage starting
at the old writeIndex. -/
theorem C19_write_never_fails (mem : Int) (b : BufferStream) (buf : List Byte) (wlen : Int)
    (h0 : 0 ≤ b.writeIndex) (hn : 0 ≤ wlen) (hlen : b.Len ≤ maxAlloc)
    (hfit : b.writeIndex + wlen ≤ b.Len ∨
      (b.writeIndex + wlen + 2048 ≤ maxAlloc ∧ b.writeIndex + wlen + 2048 ≤ mem)) :
    ∃ b', Machine.Write mem b buf wlen = some (b', wlen) ∧ wlen ≠ -1 ∧
      (b.writeIndex + wlen > b.Len →
        b.Len + 2048 ≤ b.writeIndex + wlen + 2048 ∧
        (Machine.Resize mem b (b.writeIndex + wlen + 2048)).map Prod.snd = some none) ∧
      b'.writeIndex = b.writeIndex + wlen ∧ b'.readIndex = b.readIndex ∧
      b'.vBuffer.take (min b.writeIndex.toNat b.vBuffer.length)
        = b.vBuffer.take b.writeIndex.toNat ∧
      seg b' b.writeIndex (b.writeIndex + min wlen (buf.length : Int))
        = buf.take (min wlen.toNat buf.length) := by
  obtain ⟨b', hw, hwi, hri, hpre, hcopy⟩ := Write_facts b buf wlen h0 hn
  rw [← machine_Write_agrees mem b buf wlen h0 hn hlen hfit] at hw
  refine ⟨b', hw, by omega, ?_, hwi, hri, hpre, hcopy⟩
  intro h
  have hfit' : b.writeIndex + wlen + 2048 ≤ maxAlloc ∧ b.writeIndex + wlen + 2048 ≤ mem := by
    rcases hfit with h' | h'
    · exact absurd h (by omega)
    · exact h'
  refine ⟨by omega, ?_⟩
  rw [machine_Resize_agrees mem b _ hlen (Or.inr hfit'),
    Resize_ok b _ (by unfold defaultSize; omega)]
  rfl

theorem C19_write_never_fails_witness :
    ((0 : Int) ≤ 3 ∧ (0 : Int) ≤ 4 ∧
      BufferStream.Len { vBuffer := [1, 2, 3, 4], readIndex := 1, writeIndex := 3 } ≤ maxAlloc ∧
      ((3 : Int) + 4
          ≤ BufferStream.Len { vBuffer := [1, 2, 3, 4], readIndex := 1, writeIndex := 3 } ∨
        ((3 : Int) + 4 + 2048 ≤ maxAlloc ∧ (3 : Int) + 4 + 2048 ≤ 4096))) ∧
    ∃ b', Machine.Write 4096 { vBuffer := [1, 2, 3, 4], readIndex := 1, writeIndex := 3 }
        [7, 8] 4 = some (b', 4) ∧
      b'.writeIndex = 3 + 4 ∧ b'.readIndex = 1 ∧
      b'.vBuffer.take (min (3 : Int).toNat ([1, 2, 3, 4] : List Byte).length)
        = ([1, 2, 3, 4] : List Byte).take (3 : Int).toNat ∧
      seg b' 3 (3 + min 4 ((([7, 8] : List Byte).length : Nat) : Int))
        = ([7, 8] : List Byte).take (min (4 : Int).toNat ([7, 8] : List Byte).length) := by
  obtain ⟨b', h, -, -, hw, hr, hp, hs⟩ :=
    C19_write_never_fails 4096 { vBuffer := [1, 2, 3, 4], readIndex := 1, writeIndex := 3 }
      [7, 8] 4 (by decide) (by decide) (by decide) (by decide)
  exact ⟨by decide, b', h, hw, hr, hp, hs⟩

/-- C20. Unpack with advance from any read position: on a buffer with
`0 ≤ readIndex ≤ writeIndex ≤ capacity` on which `Unpack(true)` succeeds with
length prefix `L`, the inner `Skip(4)` returns no error, the inner `GetBytes(L)`
returns the `L` body bytes and leaves readIndex at `old readIndex + 4 + L`, and
the inner `Shift(4 + L)` returns no error and leaves the buffer `Unpack`
leaves; afterwards readIndex equals its value before the call, writeIndex is
reduced by exactly `4 + L`, `Available()` is reduced by exactly `4 + L`, and the
unread bytes `storage[readIndex, writeIndex)` equal the previous
`storage[old readIndex + 4 + L, old writeIndex)`. -/
theorem C20_unpack_with_advance (b b' out : BufferStream) (hi : Inv b)
    (h : b.Unpack true = some (b', some out, none)) :
    (b.Skip 4).2 = none ∧
    (∃ b2, (b.Skip 4).1.GetBytes (prefixLen b)
          = some (b2, seg b (b.readIndex + 4) (b.readIndex + 4 + prefixLen b)) ∧
        b2.readIndex = b.readIndex + 4 + prefixLen b ∧
        b2.Shift (4 + prefixLen b) = some (b', none)) ∧
    b'.readIndex = b.readIndex ∧
    b'.writeIndex = b.writeIndex - (4 + prefixLen b) ∧
    b'.Available = b.Available - (4 + prefixLen b) ∧
    seg b' b'.readIndex b'.writeIndex
      = seg b (b.readIndex + 4 + prefixLen b) b.writeIndex := by
  obtain ⟨h4, hL, -, hb'⟩ := Unpack_success b true b' out hi h
  simp only [if_true] at hb'
  subst hb'
  obtain ⟨h0, h1, h2⟩ := hi
  have hLn : 0 ≤ prefixLen b := by unfold prefixLen; omega
  unfold Available at h4 hL
  have hs : b.Skip 4 = ({ b with readIndex := b.readIndex + 4 }, none) := by
    unfold Skip
    rw [if_neg (by omega)]
  refine ⟨by rw [hs], ?_, rfl, rfl, by unfold Available; simp only; omega, ?_⟩
  · rw [hs]
    refine ⟨{ b with readIndex := b.readIndex + 4 + prefixLen b }, ?_, rfl, ?_⟩
    · rw [GetBytes_ok { b with readIndex := b.readIndex + 4 } (prefixLen b)
        (by simp only; omega) hLn (by unfold Available; simp only; omega) h2]
      rfl
    · rw [Shift_ok { b with readIndex := b.readIndex + 4 + prefixLen b } (4 + prefixLen b)
        (by omega) (by simp only; omega) h2]
      have e : b.readIndex + 4 + prefixLen b - (4 + prefixLen b) = b.readIndex := by ring
      simp only [e]
  · unfold seg
    simp only
    unfold Len at h2
    have hk : (4 + prefixLen b).toNat + b.readIndex.toNat ≤ b.vBuffer.length := by omega
    rw [List.drop_append_of_le_length (by rw [List.length_drop]; omega),
      List.take_append_of_le_length (by
        rw [List.length_drop, List.length_drop]; omega),
      List.drop_drop]
    have e1 : (4 + prefixLen b).toNat + b.readIndex.toNat
        = (b.readIndex + 4 + prefixLen b).toNat := by omega
    have e2 : (b.writeIndex - (4 + prefixLen b) - b.readIndex).toNat
        = (b.writeIndex - (b.readIndex + 4 + prefixLen b)).toNat := by omega
    rw [e1, e2]

theorem C20_unpack_with_advance_witness :
    Inv { vBuffer := [9, 0, 0, 0, 2, 7, 8, 5], readIndex := 1, writeIndex := 8 } ∧
    ∃ b' out,
      BufferStream.Unpack
        { vBuffer := [9, 0, 0, 0, 2, 7, 8, 5], readIndex := 1, writeIndex := 8 } true
        = some (b', some out, none) ∧
      b'.readIndex = 1 ∧ b'.writeIndex = 2 ∧ b'.Available = 1 ∧
      seg b' b'.readIndex b'.writeIndex = [5] := by
  have hinv : Inv { vBuffer := [9, 0, 0, 0, 2, 7, 8, 5], readIndex := 1, writeIndex := 8 } := by
    decide
  obtain ⟨o, -, hun⟩ := Unpack_ready
    { vBuffer := [9, 0, 0, 0, 2, 7, 8, 5], readIndex := 1, writeIndex := 8 } true hinv
    (by decide) (by decide)
  obtain ⟨-, -, hr, hw, ha, hs⟩ := C20_unpack_with_advance _ _ o hinv hun
  exact ⟨hinv, _, o, hun, hr, hw.trans (by decide), ha.trans (by decide),
    hs.trans (by decide)⟩
end grapeStream
